import Mathlib

/-!
Verification development for `tools/convert_jsonl_to_c.py` of the zip-utils
repository.  Python strings are modelled as lists of Unicode code points
(`List Nat`) and byte buffers as lists of byte values (`List Nat`), so that
every definition is executable and every concrete run can be checked by
`decide` or `rfl`.
-/

namespace ZipUtils

/-- Convert a Lean string literal to the code-point list model of a Python
string.  Used only to write readable constants. -/
def strToCodes (s : String) : List Nat :=
  s.data.map Char.toNat

/-! ## UTF-8 model
Models the Python `str.encode("utf-8", errors="replace")` and
`bytes.decode("utf-8", errors="replace")` library calls used throughout
`convert_jsonl_to_c.py`.  Encoding replaces unencodable code points
(lone surrogates) with `?` (0x3F); decoding follows the WHATWG/CPython
algorithm, emitting one U+FFFD per maximal subpart of an ill-formed
subsequence. -/
/-- UTF-8 encoding of a single code point; surrogates and out-of-range
values are replaced by `?` as Python `errors="replace"` does on encode. -/
def utf8EncodeChar (c : Nat) : List Nat :=
  if c ≤ 0x7F then [c]
  else if c ≤ 0x7FF then [0xC0 + c / 0x40, 0x80 + c % 0x40]
  else if 0xD800 ≤ c ∧ c ≤ 0xDFFF then [0x3F]
  else if c ≤ 0xFFFF then
    [0xE0 + c / 0x1000, 0x80 + (c / 0x40) % 0x40, 0x80 + c % 0x40]
  else if c ≤ 0x10FFFF then
    [0xF0 + c / 0x40000, 0x80 + (c / 0x1000) % 0x40, 0x80 + (c / 0x40) % 0x40,
     0x80 + c % 0x40]
  else [0x3F]

/-- Model of `s.encode("utf-8", errors="replace")`. -/
def utf8Encode (s : List Nat) : List Nat :=
  (s.map utf8EncodeChar).flatten

/-- One step of the WHATWG UTF-8 decoder: given a lead byte and the bytes
after it, return the decoded code point (U+FFFD on error) and the bytes
remaining after the consumed maximal subpart. -/
def utf8Step (b : Nat) (bs : List Nat) : Nat × List Nat :=
  if b ≤ 0x7F then (b, bs)
  else if 0xC2 ≤ b ∧ b ≤ 0xDF then
    match bs with
    | [] => (0xFFFD, [])
    | c1 :: bs1 =>
      if 0x80 ≤ c1 ∧ c1 ≤ 0xBF then ((b - 0xC0) * 0x40 + (c1 - 0x80), bs1)
      else (0xFFFD, c1 :: bs1)
  else if 0xE0 ≤ b ∧ b ≤ 0xEF then
    match bs with
    | [] => (0xFFFD, [])
    | c1 :: bs1 =>
      if (if b = 0xE0 then 0xA0 else 0x80) ≤ c1 ∧
          c1 ≤ (if b = 0xED then 0x9F else 0xBF) then
        match bs1 with
        | [] => (0xFFFD, [])
        | c2 :: bs2 =>
          if 0x80 ≤ c2 ∧ c2 ≤ 0xBF then
            ((b - 0xE0) * 0x1000 + (c1 - 0x80) * 0x40 + (c2 - 0x80), bs2)
          else (0xFFFD, c2 :: bs2)
      else (0xFFFD, c1 :: bs1)
  else if 0xF0 ≤ b ∧ b ≤ 0xF4 then
    match bs with
    | [] => (0xFFFD, [])
    | c1 :: bs1 =>
      if (if b = 0xF0 then 0x90 else 0x80) ≤ c1 ∧
          c1 ≤ (if b = 0xF4 then 0x8F else 0xBF) then
        match bs1 with
        | [] => (0xFFFD, [])
        | c2 :: bs2 =>
          if 0x80 ≤ c2 ∧ c2 ≤ 0xBF then
            match bs2 with
            | [] => (0xFFFD, [])
            | c3 :: bs3 =>
              if 0x80 ≤ c3 ∧ c3 ≤ 0xBF then
                ((b - 0xF0) * 0x40000 + (c1 - 0x80) * 0x1000 +
                  (c2 - 0x80) * 0x40 + (c3 - 0x80), bs3)
              else (0xFFFD, c3 :: bs3)
          else (0xFFFD, c2 :: bs2)
      else (0xFFFD, c1 :: bs1)
  else (0xFFFD, bs)

/-- Decoder loop with explicit fuel; each step consumes at least one byte,
so fuel equal to the byte count makes the out-of-fuel arm unreachable.
Structural recursion on the fuel keeps the function kernel-reducible. -/
def utf8DecodeGo : Nat → List Nat → List Nat
  | _, [] => []
  | 0, _ :: _ => []
  | fuel + 1, b :: bs =>
    (utf8Step b bs).1 :: utf8DecodeGo fuel (utf8Step b bs).2

/-- Model of `raw.decode("utf-8", errors="replace")`. -/
def utf8DecodeReplace (l : List Nat) : List Nat :=
  utf8DecodeGo l.length l

/-- A Unicode scalar value: in range and not a surrogate. -/
abbrev ValidScalar (c : Nat) : Prop :=
  c ≤ 0x10FFFF ∧ ¬(0xD800 ≤ c ∧ c ≤ 0xDFFF)

/-- Replace invalid code points the way encoding with errors replace does. -/
def sanitizeScalar (c : Nat) : Nat :=
  if ValidScalar c then c else 0x3F

/-! ## clamp_utf8_bytes (convert_jsonl_to_c.py lines 76-81) -/
/-- Model of `clamp_utf8_bytes`: encode, and when over budget, clip the byte
string at the budget and decode the clip with replacement; the second
component is the truncation flag. -/
def clamp_utf8_bytes (s : List Nat) (max_bytes : Nat) : List Nat × Nat :=
  if (utf8Encode s).length ≤ max_bytes then (s, 0)
  else (utf8DecodeReplace ((utf8Encode s).take max_bytes), 1)

/-! ## sha256_hex_utf8 (convert_jsonl_to_c.py lines 72-73)
A full executable model of the SHA-256 digest used by
`hashlib.sha256(...).hexdigest()`, over byte lists with 32-bit words
represented as `Nat` reduced modulo 2 ^ 32. -/
/-- Right rotation of a 32-bit word. -/
def rotr32 (n x : Nat) : Nat :=
  ((x >>> n) ||| (x <<< (32 - n))) % 4294967296

/-- The SHA-256 round constants. -/
def sha256K : List Nat :=
  [1116352408, 1899447441, 3049323471, 3921009573,
   961987163, 1508970993, 2453635748, 2870763221,
   3624381080, 310598401, 607225278, 1426881987,
   1925078388, 2162078206, 2614888103, 3248222580,
   3835390401, 4022224774, 264347078, 604807628,
   770255983, 1249150122, 1555081692, 1996064986,
   2554220882, 2821834349, 2952996808, 3210313671,
   3336571891, 3584528711, 113926993, 338241895,
   666307205, 773529912, 1294757372, 1396182291,
   1695183700, 1986661051, 2177026350, 2456956037,
   2730485921, 2820302411, 3259730800, 3345764771,
   3516065817, 3600352804, 4094571909, 275423344,
   430227734, 506948616, 659060556, 883997877,
   958139571, 1322822218, 1537002063, 1747873779,
   1955562222, 2024104815, 2227730452, 2361852424,
   2428436474, 2756734187, 3204031479, 3329325298]

/-- The SHA-256 initial hash state. -/
def sha256H0 : List Nat :=
  [1779033703, 3144134277, 1013904242, 2773480762,
   1359893119, 2600822924, 528734635, 1541459225]

/-- Big-endian byte serialization of a value into n bytes. -/
def natToBytesBE : Nat → Nat → List Nat
  | 0, _ => []
  | n + 1, v => natToBytesBE n (v / 256) ++ [v % 256]

/-- Group bytes into big-endian 32-bit words. -/
def bytesToWords : List Nat → List Nat
  | b0 :: b1 :: b2 :: b3 :: r =>
    (((b0 * 256 + b1) * 256 + b2) * 256 + b3) :: bytesToWords r
  | _ => []

/-- Append the next word of the SHA-256 message schedule. -/
def sha256ExtendStep (w : List Nat) : List Nat :=
  let i := w.length
  let w16 := w.getD (i - 16) 0
  let w15 := w.getD (i - 15) 0
  let w7 := w.getD (i - 7) 0
  let w2 := w.getD (i - 2) 0
  let s0 := (rotr32 7 w15) ^^^ (rotr32 18 w15) ^^^ (w15 >>> 3)
  let s1 := (rotr32 17 w2) ^^^ (rotr32 19 w2) ^^^ (w2 >>> 10)
  w ++ [(w16 + s0 + w7 + s1) % 4294967296]

/-- Iterate the message-schedule extension. -/
def sha256Sched : List Nat → Nat → List Nat
  | w, 0 => w
  | w, n + 1 => sha256Sched (sha256ExtendStep w) n

/-- One SHA-256 compression round. -/
def sha256Round (st : List Nat) (kw : Nat × Nat) : List Nat :=
  match st with
  | [a, b, c, d, e, f, g, h] =>
    let S1 := (rotr32 6 e) ^^^ (rotr32 11 e) ^^^ (rotr32 25 e)
    let ch := (e &&& f) ^^^ ((0xFFFFFFFF ^^^ e) &&& g)
    let t1 := (h + S1 + ch + kw.1 + kw.2) % 4294967296
    let S0 := (rotr32 2 a) ^^^ (rotr32 13 a) ^^^ (rotr32 22 a)
    let mj := (a &&& b) ^^^ (a &&& c) ^^^ (b &&& c)
    let t2 := (S0 + mj) % 4294967296
    [(t1 + t2) % 4294967296, a, b, c, (d + t1) % 4294967296, e, f, g]
  | _ => st

/-- Process one padded 64-byte block. -/
def sha256Block (h : List Nat) (block : List Nat) : List Nat :=
  let w := sha256Sched (bytesToWords block) 48
  let st := (sha256K.zip w).foldl sha256Round h
  (h.zip st).map (fun p => (p.1 + p.2) % 4294967296)

/-- Fuel-driven 64-byte block splitter; fuel equal to the list length makes
the out-of-fuel arm unreachable. -/
def sha256BlocksGo : Nat → List Nat → List (List Nat)
  | _, [] => []
  | 0, _ :: _ => []
  | fuel + 1, b :: bs =>
    (b :: bs).take 64 :: sha256BlocksGo fuel ((b :: bs).drop 64)

/-- Split the padded message into 64-byte blocks. -/
def sha256Blocks (l : List Nat) : List (List Nat) :=
  sha256BlocksGo l.length l

/-- SHA-256 of a byte list, producing the 32 digest bytes. -/
def sha256 (msg : List Nat) : List Nat :=
  let L := msg.length
  let padZeros := (56 + 64 - ((L + 1) % 64)) % 64
  let padded := msg ++ [0x80] ++ List.replicate padZeros 0 ++
    natToBytesBE 8 (8 * L)
  let hs := (sha256Blocks padded).foldl sha256Block sha256H0
  (hs.map (natToBytesBE 4)).flatten

/-- Lowercase hexadecimal digit. -/
def hexDigit (n : Nat) : Nat :=
  if n < 10 then 0x30 + n else 0x57 + n

/-- Lowercase hexadecimal rendering of bytes. -/
def bytesToHex (bs : List Nat) : List Nat :=
  (bs.map (fun b => [hexDigit (b / 16), hexDigit (b % 16)])).flatten

/-- Model of `sha256_hex_utf8`: sha256 of the utf-8 encoding, as a lowercase
hex string. -/
def sha256_hex_utf8 (s : List Nat) : List Nat :=
  bytesToHex (sha256 (utf8Encode s))

/-! ## c_escape_bytes and split_c_literal (convert_jsonl_to_c.py 19-36, 45-56) -/
/-- Escape token emitted for one byte of the pool, following the byte cases
of `c_escape_bytes`. -/
def c_escape_byte (b : Nat) : List Nat :=
  if b = 0x5C then [0x5C, 0x5C]
  else if b = 0x22 then [0x5C, 0x22]
  else if b = 0x0A then [0x5C, 0x6E]
  else if b = 0x0D then [0x5C, 0x72]
  else if b = 0x09 then [0x5C, 0x74]
  else if 0x20 ≤ b ∧ b ≤ 0x7E then [b]
  else [0x5C, 0x30 + b / 64, 0x30 + (b / 8) % 8, 0x30 + b % 8]

/-- The escaped text of a byte buffer, without the surrounding quotes. -/
def c_escape_body (data : List Nat) : List Nat :=
  (data.map c_escape_byte).flatten

/-- Model of `c_escape_bytes`: the quoted escaped literal. -/
def c_escape_bytes (data : List Nat) : List Nat :=
  0x22 :: c_escape_body data ++ [0x22]

/-- Chunking loop of `split_c_literal` with explicit fuel; one chunk of
`max_chunk` characters is taken per step.  Fuel equal to the text length
makes the out-of-fuel arm unreachable whenever `max_chunk` is at least one
(for `max_chunk = 0` the Python loop would not terminate). -/
def splitChunksGo : Nat → List Nat → Nat → List (List Nat)
  | _, [], _ => []
  | 0, _ :: _, _ => []
  | fuel + 1, c :: cs, max_chunk =>
    (c :: cs).take max_chunk :: splitChunksGo fuel ((c :: cs).drop max_chunk)
      max_chunk

/-- The chunk texts produced by the while loop of `split_c_literal`. -/
def split_chunks (inner : List Nat) (max_chunk : Nat) : List (List Nat) :=
  splitChunksGo inner.length inner max_chunk

/-- Model of `split_c_literal`: checks the surrounding quotes, keeps a short
literal unchanged, and otherwise re-quotes the chunks joined by newlines.
The error case models the Python `ValueError`. -/
def split_c_literal (lit : List Nat) (max_chunk : Nat) :
    Except (List Nat) (List Nat) :=
  if lit.head? = some 0x22 ∧ lit.getLast? = some 0x22 then
    let inner := (lit.drop 1).dropLast
    if inner.length ≤ max_chunk then Except.ok lit
    else
      Except.ok (List.intercalate [0x0A]
        ((split_chunks inner max_chunk).map (fun c => 0x22 :: c ++ [0x22])))
  else Except.error (strToCodes "expected quoted C string literal")

/-- The inner texts of the literal chunks that `split_c_literal` emits for
an escaped pool buffer. -/
def literal_chunks (data : List Nat) (max_chunk : Nat) : List (List Nat) :=
  if (c_escape_body data).length ≤ max_chunk then [c_escape_body data]
  else split_chunks (c_escape_body data) max_chunk

/-- Octal digit test for the unescaper. -/
abbrev isOctalDigit (d : Nat) : Prop :=
  0x30 ≤ d ∧ d ≤ 0x37

/-- Modelled from the spec: one step of unescaping under the target C
string literal escape semantics (the inverse reading of the emitted
literals; the unescaper itself is not part of the repository sources).
Given the first character and the rest, returns the decoded byte and the
remaining characters; backslash followed by an octal digit consumes up to
three octal digits greedily, as a C compiler does. -/
def unescape_step (c : Nat) (rest : List Nat) : Option (Nat × List Nat) :=
  if c = 0x5C then
    match rest with
    | [] => none
    | e :: r =>
      if e = 0x5C then some (0x5C, r)
      else if e = 0x22 then some (0x22, r)
      else if e = 0x6E then some (0x0A, r)
      else if e = 0x72 then some (0x0D, r)
      else if e = 0x74 then some (0x09, r)
      else if isOctalDigit e then
        match r with
        | [] => some (e - 0x30, [])
        | d2 :: r2 =>
          if isOctalDigit d2 then
            match r2 with
            | [] => some ((e - 0x30) * 8 + (d2 - 0x30), [])
            | d3 :: r3 =>
              if isOctalDigit d3 then
                some (((e - 0x30) * 8 + (d2 - 0x30)) * 8 + (d3 - 0x30), r3)
              else some ((e - 0x30) * 8 + (d2 - 0x30), r2)
          else some (e - 0x30, r)
      else none
  else some (c, rest)

/-- Unescaper loop with explicit fuel; each step consumes at least one
character, so fuel equal to the length makes the out-of-fuel arm
unreachable. -/
def cUnescapeGo : Nat → List Nat → Option (List Nat)
  | _, [] => some []
  | 0, _ :: _ => none
  | fuel + 1, c :: rest =>
    match unescape_step c rest with
    | none => none
    | some p => Option.map (fun tl => p.1 :: tl) (cUnescapeGo fuel p.2)

/-- Modelled from the spec: unescaping a C string literal body under the
target escape semantics; returns `none` on a malformed body such as a
trailing lone backslash. -/
def c_unescape (l : List Nat) : Option (List Nat) :=
  cUnescapeGo l.length l

/-! ## tool_env_for (convert_jsonl_to_c.py lines 84-94) -/
/-- First-match lookup in an association list, modelling a Python dict
membership test plus access. -/
def lookup_assoc {α : Type} (k : List Nat) : List (List Nat × α) → Option α
  | [] => none
  | (k2, v) :: t => if k = k2 then some v else lookup_assoc k t

/-- ASCII lowering of one code point, modelling `str.lower` on the ASCII
tool names the converter handles. -/
def lowerAsciiChar (c : Nat) : Nat :=
  if 0x41 ≤ c ∧ c ≤ 0x5A then c + 0x20 else c

/-- Model of `str.lower` (ASCII fragment). -/
def lower_ascii (s : List Nat) : List Nat :=
  s.map lowerAsciiChar

/-- Split a path on slashes. -/
def splitSegs : List Nat → List (List Nat)
  | [] => [[]]
  | c :: t =>
    match splitSegs t with
    | [] => [[c]]
    | s :: rest => if c = 0x2F then [] :: s :: rest else (c :: s) :: rest

/-- Model of `Path(tool0).name`: the last path segment, with empty and
single-dot segments dropped as `PurePosixPath` normalization does. -/
def path_name (p : List Nat) : List Nat :=
  (((splitSegs p).filter
    (fun seg => !(seg.isEmpty || seg == [0x2E]))).getLastD [])

/-- Boolean test for a needle being a prefix of the haystack. -/
def listStartsWith (needle hay : List Nat) : Bool :=
  needle == hay.take needle.length

/-- Boolean substring containment, modelling the Python `in` operator on
strings. -/
def has_sub (needle : List Nat) : List Nat → Bool
  | [] => needle.isEmpty
  | c :: t => listStartsWith needle (c :: t) || has_sub needle t

/-- Model of `tool_env_for`: strip the path, lower the basename, then apply
the override table and the substring rules in order. -/
def tool_env_for (tool0 : List Nat)
    (overrides : List (List Nat × List Nat)) : List Nat :=
  let base := lower_ascii (path_name tool0)
  match lookup_assoc base overrides with
  | some v => v
  | none =>
    if has_sub (strToCodes "zipinfo") base then strToCodes "ZIPINFO_BIN"
    else if has_sub (strToCodes "unzip") base then strToCodes "UNZIP_BIN"
    else if has_sub (strToCodes "zip") base then strToCodes "ZIP_BIN"
    else strToCodes "TOOL_BIN"

/-! ## StringPool (convert_jsonl_to_c.py lines 131-151) -/
/-- Model of the `StringPool` class state: the byte buffer and the index
mapping encoded content to its stored offset and length. -/
structure StringPool where
  buf : List Nat
  index : List (List Nat × (Nat × Nat))

/-- The empty pool produced by the constructor. -/
def StringPool.empty : StringPool := ⟨[], []⟩

/-- Model of `StringPool.intern`: return the cached entry, or append the
encoded bytes plus a NUL terminator and record the new entry. -/
def StringPool.intern (p : StringPool) (s : List Nat) :
    (Nat × Nat) × StringPool :=
  let b := utf8Encode s
  match lookup_assoc b p.index with
  | some meta => (meta, p)
  | none =>
    ((p.buf.length, b.length),
      ⟨p.buf ++ b ++ [0], p.index ++ [(b, (p.buf.length, b.length))]⟩)

/-- Model of `StringPool.unique`. -/
def StringPool.unique (p : StringPool) : Nat :=
  p.index.length

/-- Run a sequence of intern calls for their state effect. -/
def run_interns (p : StringPool) (ss : List (List Nat)) : StringPool :=
  ss.foldl (fun q s => (q.intern s).2) p

/-! ## JSON record model and extract_tests (convert_jsonl_to_c.py 190-264)
The textual JSON parser is Python library code outside the repository
sources; an input line is therefore modelled as `Option Json`, where
`none` stands for a line whose stripped text is empty or fails
`json.loads`. -/
/-- JSON values as produced by `json.loads`. -/
inductive Json where
  | null
  | bool (b : Bool)
  | num (n : Int)
  | str (s : List Nat)
  | arr (xs : List Json)
  | obj (fields : List (String × Json))

/-- Field lookup in a decoded JSON object. -/
def jlookup (k : String) : List (String × Json) → Option Json
  | [] => none
  | (k2, v) :: t => if k = k2 then some v else jlookup k t

/-- Model of `json_loads_relaxed` (lines 59-69): a failed or empty line and
a non-object value give `None`; an object gives its fields. -/
def json_loads_relaxed : Option Json → Option (List (String × Json))
  | none => none
  | some (Json.obj fields) => some fields
  | some _ => none

/-- Python `isinstance(x, str)`. -/
def isJsonStr : Json → Bool
  | .str _ => true
  | _ => false

/-- Python `isinstance(x, int)`; `bool` is a subclass of `int` in Python,
so boolean values also pass. -/
def isJsonInt : Json → Bool
  | .num _ => true
  | .bool _ => true
  | _ => false

/-- The integer value of a JSON int (with Python booleans as 0 and 1). -/
def jsonToInt : Json → Int
  | .num n => n
  | .bool b => if b then 1 else 0
  | _ => 0

/-- The text of a JSON string value. -/
def jsonStrVal : Json → List Nat
  | .str s => s
  | _ => []

/-- Python whitespace test (ASCII fragment of `str.strip`). -/
def isPyWS (c : Nat) : Bool :=
  c == 0x20 || c == 0x09 || c == 0x0A || c == 0x0D || c == 0x0B || c == 0x0C

/-- Whether `s.strip()` is empty. -/
def stripIsEmpty (s : List Nat) : Bool :=
  s.all isPyWS

/-- Characters that `shlex.quote` leaves unquoted. -/
def isShlexSafe (c : Nat) : Bool :=
  (0x61 ≤ c && c ≤ 0x7A) || (0x41 ≤ c && c ≤ 0x5A) ||
  (0x30 ≤ c && c ≤ 0x39) || c == 0x5F || c == 0x40 || c == 0x25 ||
  c == 0x2B || c == 0x3D || c == 0x3A || c == 0x2C || c == 0x2E ||
  c == 0x2F || c == 0x2D

/-- Model of `shlex.quote`. -/
def shlex_quote (s : List Nat) : List Nat :=
  if s.isEmpty then [0x27, 0x27]
  else if s.all isShlexSafe then s
  else
    0x27 :: (s.map (fun c =>
      if c = 0x27 then [0x27, 0x22, 0x27, 0x22, 0x27] else [c])).flatten
      ++ [0x27]

/-- Model of `argv_to_args` (lines 111-114): shell-quote and join the
arguments after the program name. -/
def argv_to_args (argv : List (List Nat)) : List Nat :=
  if argv.length ≤ 1 then []
  else List.intercalate [0x20] ((argv.drop 1).map shlex_quote)

/-- Decimal rendering of a line or command index. -/
def natToStr (n : Nat) : List Nat :=
  strToCodes (toString n)

/-- Model of the `TestCase` dataclass (lines 117-128). -/
structure TestCase where
  name : List Nat
  tool_env : List Nat
  args : List Nat
  expected_rc : Int
  expected_stdout : List Nat
  expected_stderr : List Nat
  stdout_sha256 : List Nat
  stderr_sha256 : List Nat
  stdout_truncated : Nat
  stderr_truncated : Nat
deriving DecidableEq

/-- The `ValueError` message raised for a record whose commands value is
not a list. -/
def rec_err (path : List Nat) (lineno : Nat) (tail : String) : List Nat :=
  path ++ [0x3A] ++ natToStr lineno ++ strToCodes tail

/-- The `ValueError` message raised for a malformed command. -/
def cmd_err (path : List Nat) (lineno i : Nat) (tail : String) : List Nat :=
  path ++ [0x3A] ++ natToStr lineno ++ strToCodes " command[" ++ natToStr i
    ++ [0x5D, 0x20] ++ strToCodes tail

/-- Processing of one command object (lines 217-262): validation with the
lenient and strict regimes, then clamping, hashing and test construction. -/
def extract_command (strict : Bool) (path : List Nat) (lineno i : Nat)
    (name_pfx base_name : List Nat) (max_output_bytes : Nat)
    (env_overrides : List (List Nat × List Nat)) (cmd : Json) :
    Except (List Nat) (Option TestCase) :=
  match cmd with
  | .obj cfields =>
    match jlookup "argv" cfields with
    | some (.arr xs) =>
      if xs.all isJsonStr && !xs.isEmpty then
        match jlookup "returncode" cfields with
        | some rcv =>
          if isJsonInt rcv then
            let stdout := match jlookup "stdout" cfields with
              | some (.str s) => s
              | _ => []
            let stderr := match jlookup "stderr" cfields with
              | some (.str s) => s
              | _ => []
            let so := clamp_utf8_bytes stdout max_output_bytes
            let se := clamp_utf8_bytes stderr max_output_bytes
            let argvS := xs.map jsonStrVal
            Except.ok (some
              ⟨name_pfx ++ base_name ++ strToCodes "_cmd" ++ natToStr i,
               tool_env_for (argvS.headD []) env_overrides,
               argv_to_args argvS, jsonToInt rcv, so.1, se.1,
               sha256_hex_utf8 so.1, sha256_hex_utf8 se.1, so.2, se.2⟩)
          else if strict then
            Except.error (cmd_err path lineno i "missing returncode")
          else Except.ok none
        | none =>
          if strict then
            Except.error (cmd_err path lineno i "missing returncode")
          else Except.ok none
      else if strict then Except.error (cmd_err path lineno i "missing argv")
      else Except.ok none
    | _ =>
      if strict then Except.error (cmd_err path lineno i "missing argv")
      else Except.ok none
  | _ =>
    if strict then Except.error (cmd_err path lineno i "is not an object")
    else Except.ok none

/-- The enumerate loop over the commands of one record. -/
def extract_commands_loop (strict : Bool) (path : List Nat) (lineno : Nat)
    (name_pfx base_name : List Nat) (max_output_bytes : Nat)
    (env_overrides : List (List Nat × List Nat)) :
    Nat → List Json → Except (List Nat) (List TestCase)
  | _, [] => Except.ok []
  | i, cmd :: rest =>
    match extract_command strict path lineno i name_pfx base_name
        max_output_bytes env_overrides cmd with
    | .error e => Except.error e
    | .ok none =>
      extract_commands_loop strict path lineno name_pfx base_name
        max_output_bytes env_overrides (i + 1) rest
    | .ok (some t) =>
      (extract_commands_loop strict path lineno name_pfx base_name
        max_output_bytes env_overrides (i + 1) rest).map (fun ts => t :: ts)

/-- Processing of one input line (lines 202-215): relaxed JSON decoding,
name defaulting, and the commands-shape check. -/
def extract_record (strict : Bool) (path : List Nat) (lineno : Nat)
    (name_pfx : List Nat) (max_output_bytes : Nat)
    (env_overrides : List (List Nat × List Nat)) (line : Option Json) :
    Except (List Nat) (List TestCase) :=
  match json_loads_relaxed line with
  | none => Except.ok []
  | some fields =>
    let base_name := match jlookup "name" fields with
      | some (.str s) => if stripIsEmpty s then strToCodes "unknown" else s
      | _ => strToCodes "unknown"
    match jlookup "commands" fields with
    | none => Except.ok []
    | some (.arr cmds) =>
      extract_commands_loop strict path lineno name_pfx base_name
        max_output_bytes env_overrides 0 cmds
    | some _ =>
      if strict then
        Except.error (rec_err path lineno " commands is not a list")
      else Except.ok []

/-- The per-line loop of one input file, with one-based line numbers. -/
def extract_lines_loop (strict : Bool) (path : List Nat)
    (name_pfx : List Nat) (max_output_bytes : Nat)
    (env_overrides : List (List Nat × List Nat)) :
    Nat → List (Option Json) → Except (List Nat) (List TestCase)
  | _, [] => Except.ok []
  | lineno, line :: rest =>
    match extract_record strict path lineno name_pfx max_output_bytes
        env_overrides line with
    | .error e => Except.error e
    | .ok ts =>
      (extract_lines_loop strict path name_pfx max_output_bytes
        env_overrides (lineno + 1) rest).map (fun more => ts ++ more)

/-- Model of `extract_tests` over the decoded lines of the input files. -/
def extract_tests (inputs : List (List Nat × List (Option Json)))
    (strict : Bool) (name_pfx : List Nat) (max_output_bytes : Nat)
    (env_overrides : List (List Nat × List Nat)) :
    Except (List Nat) (List TestCase) :=
  match inputs with
  | [] => Except.ok []
  | (p, ls) :: rest =>
    match extract_lines_loop strict p name_pfx max_output_bytes
        env_overrides 1 ls with
    | .error e => Except.error e
    | .ok ts =>
      (extract_tests rest strict name_pfx max_output_bytes
        env_overrides).map (fun more => ts ++ more)

/-- Success test for the model of a Python run that may raise. -/
def except_ok {ε α : Type} : Except ε α → Bool
  | .ok _ => true
  | .error _ => false

/-! ## emit_c (convert_jsonl_to_c.py lines 267-373)
The artifact is modelled as the ordered sequence of `f.write` payloads.
The output file is opened with mode w (create or truncate) before the
first write, so after an I/O failure following k successful writes the
file on disk holds exactly the concatenation of the first k payloads. -/
/-- Decimal rendering of a C int initializer value. -/
def intToStr (n : Int) : List Nat :=
  strToCodes (toString n)

/-- The packed per-test record of offsets and lengths (the dict built in
the packing loop of `emit_c`). -/
structure PackedCase where
  name_off : Nat
  name_len : Nat
  tool_off : Nat
  tool_len : Nat
  args_off : Nat
  args_len : Nat
  rc : Int
  so_off : Nat
  so_len : Nat
  se_off : Nat
  se_len : Nat
  soh_off : Nat
  soh_len : Nat
  seh_off : Nat
  seh_len : Nat
  so_trunc : Nat
  se_trunc : Nat

/-- Intern the seven strings of one test in source order and build its
packed record. -/
def emit_pack (pool : StringPool) (t : TestCase) : PackedCase × StringPool :=
  let r1 := pool.intern t.name
  let r2 := r1.2.intern t.tool_env
  let r3 := r2.2.intern t.args
  let r4 := r3.2.intern t.expected_stdout
  let r5 := r4.2.intern t.expected_stderr
  let r6 := r5.2.intern t.stdout_sha256
  let r7 := r6.2.intern t.stderr_sha256
  (⟨r1.1.1, r1.1.2, r2.1.1, r2.1.2, r3.1.1, r3.1.2, t.expected_rc,
    r4.1.1, r4.1.2, r5.1.1, r5.1.2, r6.1.1, r6.1.2, r7.1.1, r7.1.2,
    t.stdout_truncated, t.stderr_truncated⟩, r7.2)

/-- The packing loop over all tests. -/
def emit_pack_all : List TestCase → StringPool → List PackedCase × StringPool
  | [], pool => ([], pool)
  | t :: ts, pool =>
    let r := emit_pack pool t
    let rest := emit_pack_all ts r.2
    (r.1 :: rest.1, rest.2)

/-- Model of `c_escape_str` on a present string (the None branch that
renders NULL is unused for `default_bin_dir`). -/
def c_escape_str (s : List Nat) : List Nat :=
  c_escape_bytes (utf8Encode s)

/-- The writes for one packed test case initializer. -/
def packed_writes (e : PackedCase) : List (List Nat) :=
  [strToCodes "    \x7b\n",
   strToCodes "        .name_off = " ++ natToStr e.name_off ++ strToCodes ",\n",
   strToCodes "        .name_len = " ++ natToStr e.name_len ++ strToCodes ",\n",
   strToCodes "        .tool_env_off = " ++ natToStr e.tool_off ++ strToCodes ",\n",
   strToCodes "        .tool_env_len = " ++ natToStr e.tool_len ++ strToCodes ",\n",
   strToCodes "        .args_off = " ++ natToStr e.args_off ++ strToCodes ",\n",
   strToCodes "        .args_len = " ++ natToStr e.args_len ++ strToCodes ",\n",
   strToCodes "        .expected_rc = " ++ intToStr e.rc ++ strToCodes ",\n",
   strToCodes "        .stdout_off = " ++ natToStr e.so_off ++ strToCodes ",\n",
   strToCodes "        .stdout_len = " ++ natToStr e.so_len ++ strToCodes ",\n",
   strToCodes "        .stderr_off = " ++ natToStr e.se_off ++ strToCodes ",\n",
   strToCodes "        .stderr_len = " ++ natToStr e.se_len ++ strToCodes ",\n",
   strToCodes "        .stdout_sha256_off = " ++ natToStr e.soh_off ++ strToCodes ",\n",
   strToCodes "        .stdout_sha256_len = " ++ natToStr e.soh_len ++ strToCodes ",\n",
   strToCodes "        .stderr_sha256_off = " ++ natToStr e.seh_off ++ strToCodes ",\n",
   strToCodes "        .stderr_sha256_len = " ++ natToStr e.seh_len ++ strToCodes ",\n",
   strToCodes "        .stdout_truncated = " ++ natToStr e.so_trunc ++ strToCodes ",\n",
   strToCodes "        .stderr_truncated = " ++ natToStr e.se_trunc ++ strToCodes ",\n",
   strToCodes "    \x7d,\n"]

/-- The fixed writes preceding the string pool literal. -/
def emit_header_writes : List (List Nat) :=
  [strToCodes "#define _POSIX_C_SOURCE 200809L\n",
   strToCodes "#include \"common.h\"\n",
   strToCodes "#include <stdbool.h>\n",
   strToCodes "#include <stdint.h>\n",
   strToCodes "#include <stdio.h>\n",
   strToCodes "#include <stdlib.h>\n",
   strToCodes "#include <string.h>\n",
   strToCodes "#include <unistd.h>\n",
   strToCodes "\n",
   strToCodes "typedef struct \x7b\n",
   strToCodes "    uint32_t name_off;\n",
   strToCodes "    uint32_t name_len;\n",
   strToCodes "    uint32_t tool_env_off;\n",
   strToCodes "    uint32_t tool_env_len;\n",
   strToCodes "    uint32_t args_off;\n",
   strToCodes "    uint32_t args_len;\n",
   strToCodes "    int expected_rc;\n",
   strToCodes "    uint32_t stdout_off;\n",
   strToCodes "    uint32_t stdout_len;\n",
   strToCodes "    uint32_t stderr_off;\n",
   strToCodes "    uint32_t stderr_len;\n",
   strToCodes "    uint32_t stdout_sha256_off;\n",
   strToCodes "    uint32_t stdout_sha256_len;\n",
   strToCodes "    uint32_t stderr_sha256_off;\n",
   strToCodes "    uint32_t stderr_sha256_len;\n",
   strToCodes "    uint8_t stdout_truncated;\n",
   strToCodes "    uint8_t stderr_truncated;\n",
   strToCodes "\x7d TestCase;\n\n",
   strToCodes "static const unsigned char test_strpool[] =\n"]

/-- The fixed writes between the pool literal and the test table. -/
def emit_mid_writes : List (List Nat) :=
  [strToCodes ";\n\n",
   strToCodes "static inline const char *pool_ptr(uint32_t off) \x7b\n",
   strToCodes "    return (const char *)(test_strpool + off);\n",
   strToCodes "\x7d\n\n",
   strToCodes "static TestCase tests[] = \x7b\n"]

/-- The fixed writes after the test table, parametrized by the exact-match
flag and the escaped default bin directory literal. -/
def emit_footer_writes (require_exact : Bool) (dbd_lit : List Nat) :
    List (List Nat) :=
  [strToCodes "\x7d;\n\n",
   strToCodes "static const char *default_bin_dir = ",
   dbd_lit,
   strToCodes ";\n\n",
   strToCodes "static const char *guess_fallback_bin(const char *tool_env) \x7b\n",
   strToCodes "    if (strcmp(tool_env, \"UNZIP_BIN\") == 0) return \"unzip\";\n",
   strToCodes "    if (strcmp(tool_env, \"ZIPINFO_BIN\") == 0) return \"zipinfo\";\n",
   strToCodes "    if (strcmp(tool_env, \"ZIP_BIN\") == 0) return \"zip\";\n",
   strToCodes "    return \"tool\";\n",
   strToCodes "\x7d\n\n",
   strToCodes "static void build_cmd(char *dst, size_t dstsz, const char *bin, const char *args) \x7b\n",
   strToCodes "    if (!args || args[0] == \x27\\0\x27) \x7b\n",
   strToCodes "        snprintf(dst, dstsz, \"%s\", bin);\n",
   strToCodes "        return;\n",
   strToCodes "    \x7d\n",
   strToCodes "    snprintf(dst, dstsz, \"%s %s\", bin, args);\n",
   strToCodes "\x7d\n\n",
   strToCodes "static bool match_output(const char *got, const char *expected, bool require_exact_match) \x7b\n",
   strToCodes "    if (!expected) expected = \"\";\n",
   strToCodes "    if (!got) got = \"\";\n",
   strToCodes "    if (require_exact_match) \x7b\n",
   strToCodes "        return strcmp(got, expected) == 0;\n",
   strToCodes "    \x7d\n",
   strToCodes "    if (expected[0] == \x27\\0\x27) \x7b\n",
   strToCodes "        return got[0] == \x27\\0\x27;\n",
   strToCodes "    \x7d\n",
   strToCodes "    if (got[0] == \x27\\0\x27) \x7b\n",
   strToCodes "        return false;\n",
   strToCodes "    \x7d\n",
   strToCodes "    return strncmp(got, expected, strlen(expected)) == 0;\n",
   strToCodes "\x7d\n\n",
   strToCodes "int main(void) \x7b\n",
   strToCodes "    int passed = 0;\n",
   strToCodes "    int failed = 0;\n",
   strToCodes "    const bool require_exact_match = ",
   (if require_exact then strToCodes "true" else strToCodes "false"),
   strToCodes ";\n",
   strToCodes "    char fixture_root[] = \"/tmp/zu_parity_test_XXXXXX\";\n",
   strToCodes "    if (!mkdtemp(fixture_root)) \x7b\n",
   strToCodes "        perror(\"mkdtemp\");\n",
   strToCodes "        return 1;\n",
   strToCodes "    \x7d\n\n",
   strToCodes "    for (size_t i = 0; i < sizeof(tests) / sizeof(tests[0]); ++i) \x7b\n",
   strToCodes "        TestCase *t = &tests[i];\n",
   strToCodes "        const char *name = pool_ptr(t->name_off);\n",
   strToCodes "        const char *tool_env = pool_ptr(t->tool_env_off);\n",
   strToCodes "        const char *args = pool_ptr(t->args_off);\n",
   strToCodes "        const char *exp_out = pool_ptr(t->stdout_off);\n",
   strToCodes "        const char *exp_err = pool_ptr(t->stderr_off);\n",
   strToCodes "        const char *exp_out_h = pool_ptr(t->stdout_sha256_off);\n",
   strToCodes "        const char *exp_err_h = pool_ptr(t->stderr_sha256_off);\n\n",
   strToCodes "        printf(\"Running %s... \", name);\n",
   strToCodes "        fflush(stdout);\n\n",
   strToCodes "        create_fixture(fixture_root);\n\n",
   strToCodes "        const char *bin = getenv(tool_env);\n",
   strToCodes "        char fallback[4096];\n",
   strToCodes "        if (!bin || bin[0] == \x27\\0\x27) \x7b\n",
   strToCodes "            const char *leaf = guess_fallback_bin(tool_env);\n",
   strToCodes "            snprintf(fallback, sizeof(fallback), \"%s/%s\", default_bin_dir, leaf);\n",
   strToCodes "            bin = fallback;\n",
   strToCodes "        \x7d\n\n",
   strToCodes "        char cmd[8192];\n",
   strToCodes "        build_cmd(cmd, sizeof(cmd), bin, args);\n\n",
   strToCodes "        char *out = NULL;\n",
   strToCodes "        char *err = NULL;\n",
   strToCodes "        int rc = 0;\n",
   strToCodes "        run_command(fixture_root, cmd, &out, &err, &rc);\n\n",
   strToCodes "        bool ok = true;\n",
   strToCodes "        if (rc != t->expected_rc) \x7b\n",
   strToCodes "            printf(\"\\n  RC mismatch: expected %d, got %d\\n\", t->expected_rc, rc);\n",
   strToCodes "            ok = false;\n",
   strToCodes "        \x7d\n\n",
   strToCodes "        if (!match_output(out, exp_out, require_exact_match)) \x7b\n",
   strToCodes "            printf(\"\\n  Stdout mismatch\\n\");\n",
   strToCodes "            printf(\"  expected_sha256=%s truncated=%u\\n\", exp_out_h, (unsigned)t->stdout_truncated);\n",
   strToCodes "            ok = false;\n",
   strToCodes "        \x7d\n\n",
   strToCodes "        if (!match_output(err, exp_err, require_exact_match)) \x7b\n",
   strToCodes "            printf(\"\\n  Stderr mismatch\\n\");\n",
   strToCodes "            printf(\"  expected_sha256=%s truncated=%u\\n\", exp_err_h, (unsigned)t->stderr_truncated);\n",
   strToCodes "            ok = false;\n",
   strToCodes "        \x7d\n\n",
   strToCodes "        free(out);\n",
   strToCodes "        free(err);\n",
   strToCodes "        cleanup_fixture(fixture_root);\n\n",
   strToCodes "        if (ok) \x7b\n",
   strToCodes "            printf(\"PASS\\n\");\n",
   strToCodes "            passed++;\n",
   strToCodes "        \x7d else \x7b\n",
   strToCodes "            printf(\"FAIL\\n\");\n",
   strToCodes "            failed++;\n",
   strToCodes "        \x7d\n",
   strToCodes "    \x7d\n\n",
   strToCodes "    rmdir(fixture_root);\n",
   strToCodes "    printf(\"\\nPassed: %d, Failed: %d\\n\", passed, failed);\n",
   strToCodes "    return failed > 0 ? 1 : 0;\n",
   strToCodes "\x7d\n"]

/-- Model of `emit_c` as the ordered sequence of file writes: interning and
the pool literal are computed before the file is opened, so a
`split_c_literal` failure is an error before any write. -/
def emit_c_writes (tests : List TestCase) (require_exact : Bool)
    (default_bin_dir : List Nat) : Except (List Nat) (List (List Nat)) :=
  let pool0 := (StringPool.empty.intern []).2
  let pr := emit_pack_all tests pool0
  match split_c_literal (c_escape_bytes pr.2.buf) 1400 with
  | .error e => Except.error e
  | .ok pool_lit =>
    Except.ok (emit_header_writes ++ [pool_lit] ++ emit_mid_writes ++
      (pr.1.map packed_writes).flatten ++
      emit_footer_writes require_exact (c_escape_str default_bin_dir))

/-- The complete artifact text of a successful emission. -/
def emit_c_artifact (tests : List TestCase) (require_exact : Bool)
    (default_bin_dir : List Nat) : Except (List Nat) (List Nat) :=
  (emit_c_writes tests require_exact default_bin_dir).map List.flatten

/-- The file content left behind when an I/O error interrupts emission
after k successful writes: the file was opened with truncation, so it
holds exactly the first k payloads. -/
def emit_c_interrupted (tests : List TestCase) (require_exact : Bool)
    (default_bin_dir : List Nat) (k : Nat) : Except (List Nat) (List Nat) :=
  (emit_c_writes tests require_exact default_bin_dir).map
    (fun ws => (ws.take k).flatten)

/-- The value carried by a successful run, with a default for the error
case. -/
def except_getD {ε α : Type} (e : Except ε α) (d : α) : α :=
  match e with
  | .ok a => a
  | .error _ => d

/-- Model of main (lines 489-522): extraction happens before emission, so
an extraction error aborts the run before the output file is opened. -/
def run_main (inputs : List (List Nat × List (Option Json))) (strict : Bool)
    (name_pfx : List Nat) (max_output_bytes : Nat)
    (env_overrides : List (List Nat × List Nat)) (require_exact : Bool)
    (default_bin_dir : List Nat) : Except (List Nat) (List (List Nat)) :=
  match extract_tests inputs strict name_pfx max_output_bytes
      env_overrides with
  | .error e => Except.error e
  | .ok ts => emit_c_writes ts require_exact default_bin_dir

/-! ## Lemmas and claim theorems -/

theorem utf8Step_rest_le (b : Nat) (bs : List Nat) :
    (utf8Step b bs).2.length ≤ bs.length := by
  unfold utf8Step
  repeat' split
  all_goals simp_all
  all_goals omega

theorem utf8DecodeGo_congr : ∀ (n fuel1 fuel2 : Nat) (l : List Nat),
    l.length ≤ fuel1 → l.length ≤ fuel2 → l.length ≤ n →
    utf8DecodeGo fuel1 l = utf8DecodeGo fuel2 l := by
  intro n
  induction n with
  | zero =>
    intro fuel1 fuel2 l h1 h2 hn
    have : l = [] := List.length_eq_zero.mp (by omega)
    subst this
    cases fuel1 <;> cases fuel2 <;> rfl
  | succ n ih =>
    intro fuel1 fuel2 l h1 h2 hn
    cases l with
    | nil => cases fuel1 <;> cases fuel2 <;> rfl
    | cons b bs =>
      simp only [List.length_cons] at h1 h2 hn
      obtain ⟨f1, rfl⟩ : ∃ f1, fuel1 = f1 + 1 := ⟨fuel1 - 1, by omega⟩
      obtain ⟨f2, rfl⟩ : ∃ f2, fuel2 = f2 + 1 := ⟨fuel2 - 1, by omega⟩
      simp only [utf8DecodeGo]
      have hr := utf8Step_rest_le b bs
      rw [ih f1 f2 (utf8Step b bs).2 (by omega) (by omega) (by omega)]

theorem utf8DecodeReplace_nil : utf8DecodeReplace [] = [] := rfl

theorem utf8DecodeReplace_cons (b : Nat) (bs : List Nat) :
    utf8DecodeReplace (b :: bs) =
      (utf8Step b bs).1 :: utf8DecodeReplace (utf8Step b bs).2 := by
  unfold utf8DecodeReplace
  simp only [List.length_cons, utf8DecodeGo]
  have hr := utf8Step_rest_le b bs
  rw [utf8DecodeGo_congr bs.length bs.length (utf8Step b bs).2.length
    (utf8Step b bs).2 (by omega) (by omega) (by omega)]

theorem utf8Step_ascii {b : Nat} (bs : List Nat) (h : b ≤ 0x7F) :
    utf8Step b bs = (b, bs) := by
  unfold utf8Step
  rw [if_pos h]

theorem utf8Step_two {b c1 : Nat} (r : List Nat)
    (hb : 0xC2 ≤ b ∧ b ≤ 0xDF) (hc : 0x80 ≤ c1 ∧ c1 ≤ 0xBF) :
    utf8Step b (c1 :: r) = ((b - 0xC0) * 0x40 + (c1 - 0x80), r) := by
  unfold utf8Step
  rw [if_neg (by omega), if_pos hb]
  try dsimp only
  rw [if_pos hc]

theorem utf8Step_two_end {b : Nat} (hb : 0xC2 ≤ b ∧ b ≤ 0xDF) :
    utf8Step b [] = (0xFFFD, []) := by
  unfold utf8Step
  rw [if_neg (by omega), if_pos hb]

theorem utf8Step_three {b c1 c2 : Nat} (r : List Nat)
    (hb : 0xE0 ≤ b ∧ b ≤ 0xEF)
    (hc1 : (if b = 0xE0 then 0xA0 else 0x80) ≤ c1 ∧
           c1 ≤ (if b = 0xED then 0x9F else 0xBF))
    (hc2 : 0x80 ≤ c2 ∧ c2 ≤ 0xBF) :
    utf8Step b (c1 :: c2 :: r) =
      ((b - 0xE0) * 0x1000 + (c1 - 0x80) * 0x40 + (c2 - 0x80), r) := by
  unfold utf8Step
  rw [if_neg (by omega), if_neg (by omega), if_pos hb]
  try dsimp only
  rw [if_pos hc1]
  try dsimp only
  rw [if_pos hc2]

theorem utf8Step_three_end0 {b : Nat} (hb : 0xE0 ≤ b ∧ b ≤ 0xEF) :
    utf8Step b [] = (0xFFFD, []) := by
  unfold utf8Step
  rw [if_neg (by omega), if_neg (by omega), if_pos hb]

theorem utf8Step_three_end1 {b c1 : Nat}
    (hb : 0xE0 ≤ b ∧ b ≤ 0xEF)
    (hc1 : (if b = 0xE0 then 0xA0 else 0x80) ≤ c1 ∧
           c1 ≤ (if b = 0xED then 0x9F else 0xBF)) :
    utf8Step b [c1] = (0xFFFD, []) := by
  unfold utf8Step
  rw [if_neg (by omega), if_neg (by omega), if_pos hb]
  try dsimp only
  rw [if_pos hc1]

theorem utf8Step_four {b c1 c2 c3 : Nat} (r : List Nat)
    (hb : 0xF0 ≤ b ∧ b ≤ 0xF4)
    (hc1 : (if b = 0xF0 then 0x90 else 0x80) ≤ c1 ∧
           c1 ≤ (if b = 0xF4 then 0x8F else 0xBF))
    (hc2 : 0x80 ≤ c2 ∧ c2 ≤ 0xBF) (hc3 : 0x80 ≤ c3 ∧ c3 ≤ 0xBF) :
    utf8Step b (c1 :: c2 :: c3 :: r) =
      ((b - 0xF0) * 0x40000 + (c1 - 0x80) * 0x1000 + (c2 - 0x80) * 0x40 +
        (c3 - 0x80), r) := by
  unfold utf8Step
  rw [if_neg (by omega), if_neg (by omega), if_neg (by omega), if_pos hb]
  try dsimp only
  rw [if_pos hc1]
  try dsimp only
  rw [if_pos hc2]
  try dsimp only
  rw [if_pos hc3]

theorem utf8Step_four_end0 {b : Nat} (hb : 0xF0 ≤ b ∧ b ≤ 0xF4) :
    utf8Step b [] = (0xFFFD, []) := by
  unfold utf8Step
  rw [if_neg (by omega), if_neg (by omega), if_neg (by omega), if_pos hb]

theorem utf8Step_four_end1 {b c1 : Nat}
    (hb : 0xF0 ≤ b ∧ b ≤ 0xF4)
    (hc1 : (if b = 0xF0 then 0x90 else 0x80) ≤ c1 ∧
           c1 ≤ (if b = 0xF4 then 0x8F else 0xBF)) :
    utf8Step b [c1] = (0xFFFD, []) := by
  unfold utf8Step
  rw [if_neg (by omega), if_neg (by omega), if_neg (by omega), if_pos hb]
  try dsimp only
  rw [if_pos hc1]

theorem utf8Step_four_end2 {b c1 c2 : Nat}
    (hb : 0xF0 ≤ b ∧ b ≤ 0xF4)
    (hc1 : (if b = 0xF0 then 0x90 else 0x80) ≤ c1 ∧
           c1 ≤ (if b = 0xF4 then 0x8F else 0xBF))
    (hc2 : 0x80 ≤ c2 ∧ c2 ≤ 0xBF) :
    utf8Step b [c1, c2] = (0xFFFD, []) := by
  unfold utf8Step
  rw [if_neg (by omega), if_neg (by omega), if_neg (by omega), if_pos hb]
  try dsimp only
  rw [if_pos hc1]
  try dsimp only
  rw [if_pos hc2]

/-- Decoding consumes a complete well-formed character encoding exactly. -/
theorem utf8DecodeReplace_encChar_append (c : Nat) (hv : ValidScalar c)
    (z : List Nat) :
    utf8DecodeReplace (utf8EncodeChar c ++ z) = c :: utf8DecodeReplace z := by
  obtain ⟨hle, hsur⟩ := hv
  by_cases h1 : c ≤ 0x7F
  · have he : utf8EncodeChar c = [c] := by
      unfold utf8EncodeChar
      rw [if_pos h1]
    rw [he, List.singleton_append, utf8DecodeReplace_cons, utf8Step_ascii z h1]
  · by_cases h2 : c ≤ 0x7FF
    · have he : utf8EncodeChar c = [0xC0 + c / 0x40, 0x80 + c % 0x40] := by
        unfold utf8EncodeChar
        rw [if_neg h1, if_pos h2]
      rw [he, List.cons_append, List.singleton_append, utf8DecodeReplace_cons,
        utf8Step_two z (by omega) (by omega)]
      have hval : (0xC0 + c / 0x40 - 0xC0) * 0x40 + (0x80 + c % 0x40 - 0x80)
          = c := by omega
      rw [hval]
    · by_cases h3 : c ≤ 0xFFFF
      · have he : utf8EncodeChar c =
            [0xE0 + c / 0x1000, 0x80 + (c / 0x40) % 0x40, 0x80 + c % 0x40] := by
          unfold utf8EncodeChar
          rw [if_neg h1, if_neg h2, if_neg hsur, if_pos h3]
        have hc1 : (if 0xE0 + c / 0x1000 = 0xE0 then 0xA0 else 0x80) ≤
              0x80 + (c / 0x40) % 0x40 ∧
            0x80 + (c / 0x40) % 0x40 ≤
              (if 0xE0 + c / 0x1000 = 0xED then 0x9F else 0xBF) := by
          constructor
          · split <;> omega
          · split <;> omega
        rw [he, List.cons_append, List.cons_append, List.singleton_append,
          utf8DecodeReplace_cons, utf8Step_three z (by omega) hc1 (by omega)]
        have hval : (0xE0 + c / 0x1000 - 0xE0) * 0x1000 +
            (0x80 + (c / 0x40) % 0x40 - 0x80) * 0x40 +
            (0x80 + c % 0x40 - 0x80) = c := by omega
        rw [hval]
      · have he : utf8EncodeChar c =
            [0xF0 + c / 0x40000, 0x80 + (c / 0x1000) % 0x40,
             0x80 + (c / 0x40) % 0x40, 0x80 + c % 0x40] := by
          unfold utf8EncodeChar
          rw [if_neg h1, if_neg h2, if_neg hsur, if_neg h3, if_pos hle]
        have hc1 : (if 0xF0 + c / 0x40000 = 0xF0 then 0x90 else 0x80) ≤
              0x80 + (c / 0x1000) % 0x40 ∧
            0x80 + (c / 0x1000) % 0x40 ≤
              (if 0xF0 + c / 0x40000 = 0xF4 then 0x8F else 0xBF) := by
          constructor
          · split <;> omega
          · split <;> omega
        rw [he, List.cons_append, List.cons_append, List.cons_append,
          List.singleton_append, utf8DecodeReplace_cons,
          utf8Step_four z (by omega) hc1 (by omega) (by omega)]
        have hval : (0xF0 + c / 0x40000 - 0xF0) * 0x40000 +
            (0x80 + (c / 0x1000) % 0x40 - 0x80) * 0x1000 +
            (0x80 + (c / 0x40) % 0x40 - 0x80) * 0x40 +
            (0x80 + c % 0x40 - 0x80) = c := by omega
        rw [hval]

/-- Decoding a nonempty strict prefix of a single well-formed character
encoding yields exactly one replacement character. -/
theorem utf8DecodeReplace_encChar_take (c : Nat) (hv : ValidScalar c)
    (b : Nat) (hb1 : 1 ≤ b) (hb2 : b < (utf8EncodeChar c).length) :
    utf8DecodeReplace ((utf8EncodeChar c).take b) = [0xFFFD] := by
  obtain ⟨hle, hsur⟩ := hv
  by_cases h1 : c ≤ 0x7F
  · have he : utf8EncodeChar c = [c] := by
      unfold utf8EncodeChar
      rw [if_pos h1]
    rw [he] at hb2
    simp at hb2
    omega
  · by_cases h2 : c ≤ 0x7FF
    · have he : utf8EncodeChar c = [0xC0 + c / 0x40, 0x80 + c % 0x40] := by
        unfold utf8EncodeChar
        rw [if_neg h1, if_pos h2]
      rw [he] at hb2 ⊢
      simp only [List.length_cons, List.length_nil] at hb2
      have hb : b = 1 := by omega
      subst hb
      simp only [List.take_succ_cons, List.take_zero]
      rw [utf8DecodeReplace_cons, utf8Step_two_end (by omega)]
      rw [utf8DecodeReplace_nil]
    · by_cases h3 : c ≤ 0xFFFF
      · have he : utf8EncodeChar c =
            [0xE0 + c / 0x1000, 0x80 + (c / 0x40) % 0x40, 0x80 + c % 0x40] := by
          unfold utf8EncodeChar
          rw [if_neg h1, if_neg h2, if_neg hsur, if_pos h3]
        have hc1 : (if 0xE0 + c / 0x1000 = 0xE0 then 0xA0 else 0x80) ≤
              0x80 + (c / 0x40) % 0x40 ∧
            0x80 + (c / 0x40) % 0x40 ≤
              (if 0xE0 + c / 0x1000 = 0xED then 0x9F else 0xBF) := by
          constructor
          · split <;> omega
          · split <;> omega
        rw [he] at hb2 ⊢
        simp only [List.length_cons, List.length_nil] at hb2
        interval_cases b
        · simp only [List.take_succ_cons, List.take_zero]
          rw [utf8DecodeReplace_cons, utf8Step_three_end0 (by omega)]
          rw [utf8DecodeReplace_nil]
        · simp only [List.take_succ_cons, List.take_zero]
          rw [utf8DecodeReplace_cons, utf8Step_three_end1 (by omega) hc1]
          rw [utf8DecodeReplace_nil]
      · have he : utf8EncodeChar c =
            [0xF0 + c / 0x40000, 0x80 + (c / 0x1000) % 0x40,
             0x80 + (c / 0x40) % 0x40, 0x80 + c % 0x40] := by
          unfold utf8EncodeChar
          rw [if_neg h1, if_neg h2, if_neg hsur, if_neg h3, if_pos hle]
        have hc1 : (if 0xF0 + c / 0x40000 = 0xF0 then 0x90 else 0x80) ≤
              0x80 + (c / 0x1000) % 0x40 ∧
            0x80 + (c / 0x1000) % 0x40 ≤
              (if 0xF0 + c / 0x40000 = 0xF4 then 0x8F else 0xBF) := by
          constructor
          · split <;> omega
          · split <;> omega
        rw [he] at hb2 ⊢
        simp only [List.length_cons, List.length_nil] at hb2
        interval_cases b
        · simp only [List.take_succ_cons, List.take_zero]
          rw [utf8DecodeReplace_cons, utf8Step_four_end0 (by omega)]
          rw [utf8DecodeReplace_nil]
        · simp only [List.take_succ_cons, List.take_zero]
          rw [utf8DecodeReplace_cons, utf8Step_four_end1 (by omega) hc1]
          rw [utf8DecodeReplace_nil]
        · simp only [List.take_succ_cons, List.take_zero]
          rw [utf8DecodeReplace_cons,
            utf8Step_four_end2 (by omega) hc1 (by omega)]
          rw [utf8DecodeReplace_nil]

theorem utf8Encode_nil : utf8Encode [] = [] := rfl

theorem utf8Encode_cons (c : Nat) (s : List Nat) :
    utf8Encode (c :: s) = utf8EncodeChar c ++ utf8Encode s := by
  simp [utf8Encode]

theorem utf8Encode_append (s t : List Nat) :
    utf8Encode (s ++ t) = utf8Encode s ++ utf8Encode t := by
  simp [utf8Encode]

/-- Decoding an encoded valid-scalar string consumes it exactly. -/
theorem utf8DecodeReplace_encode_append (t : List Nat)
    (ht : ∀ c ∈ t, ValidScalar c) (z : List Nat) :
    utf8DecodeReplace (utf8Encode t ++ z) = t ++ utf8DecodeReplace z := by
  induction t with
  | nil => simp [utf8Encode_nil]
  | cons c t ih =>
    rw [utf8Encode_cons, List.append_assoc,
      utf8DecodeReplace_encChar_append c (ht c (by simp)),
      ih (fun x hx => ht x (by simp [hx])), List.cons_append]

theorem utf8DecodeReplace_encode (t : List Nat)
    (ht : ∀ c ∈ t, ValidScalar c) :
    utf8DecodeReplace (utf8Encode t) = t := by
  have h := utf8DecodeReplace_encode_append t ht []
  simpa [utf8DecodeReplace_nil] using h

theorem sanitizeScalar_valid (c : Nat) : ValidScalar (sanitizeScalar c) := by
  unfold sanitizeScalar
  split
  · assumption
  · decide

theorem utf8EncodeChar_sanitize (c : Nat) :
    utf8EncodeChar c = utf8EncodeChar (sanitizeScalar c) := by
  unfold sanitizeScalar
  split
  · rfl
  · rename_i h
    have he : utf8EncodeChar c = [0x3F] := by
      rcases Nat.lt_or_ge 0x10FFFF c with hbig | hsmall
      · unfold utf8EncodeChar
        rw [if_neg (by omega), if_neg (by omega), if_neg (by omega),
          if_neg (by omega), if_neg (by omega)]
      · have hs : 0xD800 ≤ c ∧ c ≤ 0xDFFF := by
          by_contra hs
          exact h ⟨hsmall, hs⟩
        unfold utf8EncodeChar
        rw [if_neg (by omega), if_neg (by omega), if_pos hs]
    rw [he]
    rfl

theorem utf8Encode_sanitize (s : List Nat) :
    utf8Encode s = utf8Encode (s.map sanitizeScalar) := by
  induction s with
  | nil => rfl
  | cons c s ih =>
    rw [List.map_cons, utf8Encode_cons, utf8Encode_cons, ih,
      utf8EncodeChar_sanitize c]

theorem utf8EncodeChar_length_pos (c : Nat) :
    1 ≤ (utf8EncodeChar c).length := by
  unfold utf8EncodeChar
  repeat' split
  all_goals simp

theorem utf8EncodeChar_length_le (c : Nat) :
    (utf8EncodeChar c).length ≤ 4 := by
  unfold utf8EncodeChar
  repeat' split
  all_goals simp

/-- Structure of decoding a byte-truncated valid encoding: the result is a
character prefix, followed by one replacement character when the cut point
landed strictly inside a character encoding. -/
theorem clip_decode (cs : List Nat) (h : ∀ c ∈ cs, ValidScalar c) (b : Nat) :
    ∃ t : List Nat, (∀ c ∈ t, ValidScalar c) ∧
      (utf8DecodeReplace ((utf8Encode cs).take b) = t ∧
          utf8Encode t = (utf8Encode cs).take b
        ∨ ∃ k, 1 ≤ k ∧ k ≤ 3 ∧ (utf8Encode t).length + k = b ∧
            utf8DecodeReplace ((utf8Encode cs).take b) = t ++ [0xFFFD]) := by
  induction cs generalizing b with
  | nil =>
    refine ⟨[], by simp, Or.inl ?_⟩
    simp [utf8Encode_nil, utf8DecodeReplace_nil]
  | cons c cs ih =>
    have hc : ValidScalar c := h c (by simp)
    have hcs : ∀ x ∈ cs, ValidScalar x := fun x hx => h x (by simp [hx])
    by_cases hbL : (utf8EncodeChar c).length ≤ b
    · obtain ⟨t, htv, hcase⟩ := ih hcs (b - (utf8EncodeChar c).length)
      have htake : (utf8Encode (c :: cs)).take b =
          utf8EncodeChar c ++
            (utf8Encode cs).take (b - (utf8EncodeChar c).length) := by
        rw [utf8Encode_cons, List.take_append_eq_append_take,
          List.take_of_length_le hbL]
      refine ⟨c :: t, ?_, ?_⟩
      · intro x hx
        rcases List.mem_cons.mp hx with hx | hx
        · exact hx ▸ hc
        · exact htv x hx
      rcases hcase with ⟨hdec, henc⟩ | ⟨k, hk1, hk3, hkb, hdec⟩
      · left
        constructor
        · rw [htake, utf8DecodeReplace_encChar_append c hc, hdec]
        · rw [utf8Encode_cons, henc, htake]
      · right
        refine ⟨k, hk1, hk3, ?_, ?_⟩
        · rw [utf8Encode_cons, List.length_append]
          omega
        · rw [htake, utf8DecodeReplace_encChar_append c hc, hdec,
            List.cons_append]
    · push_neg at hbL
      have htake : (utf8Encode (c :: cs)).take b = (utf8EncodeChar c).take b := by
        rw [utf8Encode_cons, List.take_append_of_le_length (le_of_lt hbL)]
      by_cases hb0 : b = 0
      · subst hb0
        refine ⟨[], by simp, Or.inl ?_⟩
        simp [htake, utf8DecodeReplace_nil, utf8Encode_nil]
      · have hb1 : 1 ≤ b := by omega
        refine ⟨[], by simp, Or.inr ⟨b, hb1, ?_, ?_, ?_⟩⟩
        · have := utf8EncodeChar_length_le c
          omega
        · simp [utf8Encode_nil]
        · rw [htake, utf8DecodeReplace_encChar_take c hc b hb1 hbL]
          simp

/-- Regression check of the digest model against the published SHA-256 test
vector for the empty message. -/
theorem sha256_empty_vector :
    sha256_hex_utf8 [] =
      strToCodes
        "e3b0c44298fc1c149afbf4c8996fb92427ae41e4649b934ca495991b7852b855" := by
  decide

/-- Regression check of the digest model against the published SHA-256 test
vector for the three-byte message abc. -/
theorem sha256_abc_vector :
    sha256_hex_utf8 (strToCodes "abc") =
      strToCodes
        "ba7816bf8f01cfea414140de5dae2223b00361a396177a9cb410ff61f20015ad" := by
  decide

/-! ## Claims C5 and C6 about the output clamp -/
/-- C5 counterexample: for the one-character input U+00E9 and byte budget 1,
the clamped text is the replacement character, whose encoding has 3 bytes,
exceeding the budget.  This refutes the claim that the clamped text byte
length is always at most the budget. -/
theorem clamp_budget_counterexample :
    (utf8Encode (clamp_utf8_bytes [0xE9] 1).1).length = 3 ∧
      ¬(utf8Encode (clamp_utf8_bytes [0xE9] 1).1).length ≤ 1 := by
  decide

/-- C5 (amended): for every input string and every non-negative byte budget,
the clamped text has encoded byte length at most the budget plus two: a
multi-byte sequence cut at the truncation point is replaced by the
three-byte replacement character, which can exceed the budget by up to two
bytes. -/
theorem clamp_budget_amended (s : List Nat) (b : Nat) :
    (utf8Encode (clamp_utf8_bytes s b).1).length ≤ b + 2 := by
  unfold clamp_utf8_bytes
  by_cases h : (utf8Encode s).length ≤ b
  · rw [if_pos h]
    exact le_trans h (by omega)
  · rw [if_neg h]
    have hs : ∀ c ∈ s.map sanitizeScalar, ValidScalar c := by
      intro c hc
      obtain ⟨x, hx, rfl⟩ := List.mem_map.mp hc
      exact sanitizeScalar_valid x
    obtain ⟨t, htv, hcase⟩ := clip_decode (s.map sanitizeScalar) hs b
    rw [utf8Encode_sanitize s]
    rcases hcase with ⟨hdec, henc⟩ | ⟨k, hk1, hk3, hkb, hdec⟩
    · rw [hdec, henc]
      have := List.length_take_le b (utf8Encode (s.map sanitizeScalar))
      omega
    · rw [hdec, utf8Encode_append]
      have hf : utf8Encode [0xFFFD] = [0xEF, 0xBF, 0xBD] := by decide
      rw [hf, List.length_append]
      simp only [List.length_cons, List.length_nil]
      omega

/-- C6 counterexample: clamping the already-clamped text of input U+00E9 at
budget 1 sets the truncation flag again rather than leaving it clear, since
the replacement character produced by the first clamp itself overflows the
budget. -/
theorem clamp_idempotent_counterexample :
    (clamp_utf8_bytes ((clamp_utf8_bytes [0xE9] 1).1) 1).2 = 1 ∧
      ¬(clamp_utf8_bytes ((clamp_utf8_bytes [0xE9] 1).1) 1).2 = 0 := by
  decide

/-- C6 (amended): clamping already-clamped text at the same budget returns
the text unchanged (the text component is idempotent), though the
truncation flag may be set again when the replacement character overflows
the budget; and the digest of identical clamped text is identical. -/
theorem clamp_idempotent_amended (s : List Nat) (b : Nat) (t2 : List Nat)
    (b2 : Nat) :
    (clamp_utf8_bytes ((clamp_utf8_bytes s b).1) b).1 =
        (clamp_utf8_bytes s b).1 ∧
      ((clamp_utf8_bytes s b).1 = (clamp_utf8_bytes t2 b2).1 →
        sha256_hex_utf8 ((clamp_utf8_bytes s b).1) =
          sha256_hex_utf8 ((clamp_utf8_bytes t2 b2).1)) := by
  constructor
  · by_cases h : (utf8Encode s).length ≤ b
    · have h1 : clamp_utf8_bytes s b = (s, 0) := by
        unfold clamp_utf8_bytes
        rw [if_pos h]
      rw [h1]
      unfold clamp_utf8_bytes
      rw [if_pos h]
    · have h1 : clamp_utf8_bytes s b =
          (utf8DecodeReplace ((utf8Encode s).take b), 1) := by
        unfold clamp_utf8_bytes
        rw [if_neg h]
      rw [h1]
      have hs : ∀ c ∈ s.map sanitizeScalar, ValidScalar c := by
        intro c hc
        obtain ⟨x, hx, rfl⟩ := List.mem_map.mp hc
        exact sanitizeScalar_valid x
      obtain ⟨t, htv, hcase⟩ := clip_decode (s.map sanitizeScalar) hs b
      rw [utf8Encode_sanitize s] at *
      rcases hcase with ⟨hdec, henc⟩ | ⟨k, hk1, hk3, hkb, hdec⟩
      · rw [hdec]
        have hlen : (utf8Encode t).length ≤ b := by
          rw [henc]
          exact List.length_take_le b _
        unfold clamp_utf8_bytes
        rw [if_pos hlen]
      · rw [hdec]
        have hf : utf8EncodeChar 0xFFFD = [0xEF, 0xBF, 0xBD] := by decide
        have hra : utf8Encode (t ++ [0xFFFD]) =
            utf8Encode t ++ [0xEF, 0xBF, 0xBD] := by
          rw [utf8Encode_append]
          congr 1
        have hrl : (utf8Encode (t ++ [0xFFFD])).length =
            (utf8Encode t).length + 3 := by
          rw [hra, List.length_append]
          simp
        by_cases hk : k = 3
        · have hfit : (utf8Encode (t ++ [0xFFFD])).length ≤ b := by omega
          unfold clamp_utf8_bytes
          rw [if_pos hfit]
        · have hover : ¬(utf8Encode (t ++ [0xFFFD])).length ≤ b := by omega
          unfold clamp_utf8_bytes
          rw [if_neg hover]
          have htake : (utf8Encode (t ++ [0xFFFD])).take b =
              utf8Encode t ++ ([0xEF, 0xBF, 0xBD].take k) := by
            have hbk : b - (utf8Encode t).length = k := by omega
            rw [hra, List.take_append_eq_append_take,
              List.take_of_length_le (by omega), hbk]
          rw [htake]
          have hkfd : [0xEF, 0xBF, 0xBD].take k =
              (utf8EncodeChar 0xFFFD).take k := by
            rw [hf]
          rw [hkfd,
            utf8DecodeReplace_encode_append t htv,
            utf8DecodeReplace_encChar_take 0xFFFD (by decide) k (by omega)
              (by rw [hf]; simp only [List.length_cons, List.length_nil]; omega)]
  · intro h
    rw [h]

/-- C6 witness: the idempotence and digest congruence at the concrete
input U+00E9 with budget 1. -/
theorem clamp_idempotent_amended_witness :
    (clamp_utf8_bytes ((clamp_utf8_bytes [0xE9] 1).1) 1).1 =
        (clamp_utf8_bytes [0xE9] 1).1 ∧
      sha256_hex_utf8 ((clamp_utf8_bytes [0xE9] 1).1) =
        sha256_hex_utf8 ((clamp_utf8_bytes [0xE9] 1).1) :=
  ⟨(clamp_idempotent_amended [0xE9] 1 [0xE9] 1).1,
   (clamp_idempotent_amended [0xE9] 1 [0xE9] 1).2 rfl⟩

theorem unescape_step_rest_le (c : Nat) (rest : List Nat) (p : Nat × List Nat)
    (h : unescape_step c rest = some p) : p.2.length ≤ rest.length := by
  obtain ⟨v, r0⟩ := p
  unfold unescape_step at h
  repeat' split at h
  all_goals simp_all
  all_goals omega

theorem cUnescapeGo_congr : ∀ (n fuel1 fuel2 : Nat) (l : List Nat),
    l.length ≤ fuel1 → l.length ≤ fuel2 → l.length ≤ n →
    cUnescapeGo fuel1 l = cUnescapeGo fuel2 l := by
  intro n
  induction n with
  | zero =>
    intro fuel1 fuel2 l h1 h2 hn
    have : l = [] := List.length_eq_zero.mp (by omega)
    subst this
    cases fuel1 <;> cases fuel2 <;> rfl
  | succ n ih =>
    intro fuel1 fuel2 l h1 h2 hn
    cases l with
    | nil => cases fuel1 <;> cases fuel2 <;> rfl
    | cons c rest =>
      simp only [List.length_cons] at h1 h2 hn
      obtain ⟨f1, rfl⟩ : ∃ f1, fuel1 = f1 + 1 := ⟨fuel1 - 1, by omega⟩
      obtain ⟨f2, rfl⟩ : ∃ f2, fuel2 = f2 + 1 := ⟨fuel2 - 1, by omega⟩
      simp only [cUnescapeGo]
      cases hstep : unescape_step c rest with
      | none => rfl
      | some p =>
        have hr := unescape_step_rest_le c rest p hstep
        dsimp only
        rw [ih f1 f2 p.2 (by omega) (by omega) (by omega)]

theorem c_unescape_cons_none (c : Nat) (rest : List Nat)
    (h : unescape_step c rest = none) :
    c_unescape (c :: rest) = none := by
  unfold c_unescape
  simp only [List.length_cons, cUnescapeGo, h]

theorem c_unescape_cons_some (c : Nat) (rest : List Nat) (p : Nat × List Nat)
    (h : unescape_step c rest = some p) :
    c_unescape (c :: rest) =
      Option.map (fun tl => p.1 :: tl) (c_unescape p.2) := by
  unfold c_unescape
  simp only [List.length_cons, cUnescapeGo, h]
  have hr := unescape_step_rest_le c rest p h
  rw [cUnescapeGo_congr rest.length rest.length p.2.length p.2 (by omega)
    (by omega) (by omega)]

theorem unescape_step_plain {c : Nat} (hc : ¬c = 0x5C) (rest : List Nat) :
    unescape_step c rest = some (c, rest) := by
  unfold unescape_step
  rw [if_neg hc]

theorem unescape_step_bs (r : List Nat) :
    unescape_step 0x5C (0x5C :: r) = some (0x5C, r) := by
  unfold unescape_step
  rw [if_pos rfl]
  dsimp only
  rw [if_pos rfl]

theorem unescape_step_quote (r : List Nat) :
    unescape_step 0x5C (0x22 :: r) = some (0x22, r) := by
  unfold unescape_step
  rw [if_pos rfl]
  dsimp only
  rw [if_neg (by omega), if_pos rfl]

theorem unescape_step_newline (r : List Nat) :
    unescape_step 0x5C (0x6E :: r) = some (0x0A, r) := by
  unfold unescape_step
  rw [if_pos rfl]
  dsimp only
  rw [if_neg (by omega), if_neg (by omega), if_pos rfl]

theorem unescape_step_creturn (r : List Nat) :
    unescape_step 0x5C (0x72 :: r) = some (0x0D, r) := by
  unfold unescape_step
  rw [if_pos rfl]
  dsimp only
  rw [if_neg (by omega), if_neg (by omega), if_neg (by omega), if_pos rfl]

theorem unescape_step_tab (r : List Nat) :
    unescape_step 0x5C (0x74 :: r) = some (0x09, r) := by
  unfold unescape_step
  rw [if_pos rfl]
  dsimp only
  rw [if_neg (by omega), if_neg (by omega), if_neg (by omega),
    if_neg (by omega), if_pos rfl]

theorem unescape_step_octal3 {d1 d2 d3 : Nat} (r : List Nat)
    (h1 : isOctalDigit d1) (h2 : isOctalDigit d2) (h3 : isOctalDigit d3) :
    unescape_step 0x5C (d1 :: d2 :: d3 :: r) =
      some (((d1 - 0x30) * 8 + (d2 - 0x30)) * 8 + (d3 - 0x30), r) := by
  unfold unescape_step
  rw [if_pos rfl]
  dsimp only
  rw [if_neg (by omega), if_neg (by omega), if_neg (by omega),
    if_neg (by omega), if_neg (by omega), if_pos h1]
  try dsimp only
  rw [if_pos h2]
  try dsimp only
  rw [if_pos h3]

/-- Unescaping consumes the escape token of one byte exactly and yields the
byte back. -/
theorem c_unescape_escape_byte (b : Nat) (hb : b ≤ 0xFF) (z : List Nat) :
    c_unescape (c_escape_byte b ++ z) =
      Option.map (fun tl => b :: tl) (c_unescape z) := by
  unfold c_escape_byte
  by_cases h1 : b = 0x5C
  · rw [if_pos h1, List.cons_append, List.cons_append, List.nil_append,
      c_unescape_cons_some _ _ _ (unescape_step_bs z), h1]
  · rw [if_neg h1]
    by_cases h2 : b = 0x22
    · rw [if_pos h2, List.cons_append, List.cons_append, List.nil_append,
        c_unescape_cons_some _ _ _ (unescape_step_quote z), h2]
    · rw [if_neg h2]
      by_cases h3 : b = 0x0A
      · rw [if_pos h3, List.cons_append, List.cons_append, List.nil_append,
          c_unescape_cons_some _ _ _ (unescape_step_newline z), h3]
      · rw [if_neg h3]
        by_cases h4 : b = 0x0D
        · rw [if_pos h4, List.cons_append, List.cons_append, List.nil_append,
            c_unescape_cons_some _ _ _ (unescape_step_creturn z), h4]
        · rw [if_neg h4]
          by_cases h5 : b = 0x09
          · rw [if_pos h5, List.cons_append, List.cons_append,
              List.nil_append,
              c_unescape_cons_some _ _ _ (unescape_step_tab z), h5]
          · rw [if_neg h5]
            by_cases h6 : 0x20 ≤ b ∧ b ≤ 0x7E
            · rw [if_pos h6, List.cons_append, List.nil_append,
                c_unescape_cons_some _ _ _ (unescape_step_plain h1 z)]
            · rw [if_neg h6, List.cons_append, List.cons_append,
                List.cons_append, List.cons_append, List.nil_append,
                c_unescape_cons_some _ _ _
                  (unescape_step_octal3 z (by omega) (by omega) (by omega))]
              have hv : ((0x30 + b / 64 - 0x30) * 8 + (0x30 + b / 8 % 8 - 0x30))
                  * 8 + (0x30 + b % 8 - 0x30) = b := by omega
              rw [hv]

/-- Unescaping the escaped body of a byte buffer returns the buffer. -/
theorem c_unescape_escape_body (data : List Nat) (h : ∀ x ∈ data, x ≤ 0xFF) :
    c_unescape (c_escape_body data) = some data := by
  induction data with
  | nil => rfl
  | cons b d ih =>
    have hbody : c_escape_body (b :: d) = c_escape_byte b ++ c_escape_body d := by
      simp [c_escape_body]
    rw [hbody, c_unescape_escape_byte b (h b (by simp)) _,
      ih (fun x hx => h x (by simp [hx]))]
    rfl

theorem splitChunksGo_flatten : ∀ (fuel : Nat) (inner : List Nat)
    (max_chunk : Nat), inner.length ≤ fuel → 1 ≤ max_chunk →
    (splitChunksGo fuel inner max_chunk).flatten = inner := by
  intro fuel
  induction fuel with
  | zero =>
    intro inner mc h hm
    have : inner = [] := List.length_eq_zero.mp (by omega)
    subst this
    rfl
  | succ f ih =>
    intro inner mc h hm
    cases inner with
    | nil => rfl
    | cons c cs =>
      simp only [splitChunksGo, List.flatten_cons]
      rw [ih _ mc (by simp only [List.length_drop, List.length_cons] at h ⊢; omega) hm]
      exact List.take_append_drop mc (c :: cs)

/-- Chunk reassembly: concatenating the chunks restores the escaped text. -/
theorem split_chunks_flatten (inner : List Nat) (mc : Nat) (hm : 1 ≤ mc) :
    (split_chunks inner mc).flatten = inner :=
  splitChunksGo_flatten inner.length inner mc (le_refl _) hm

/-- Applying `split_c_literal` to an escaped pool literal always succeeds
and renders exactly the quoted `literal_chunks`, joined by newlines. -/
theorem split_c_literal_escape (data : List Nat) (mc : Nat) :
    split_c_literal (c_escape_bytes data) mc =
      Except.ok (List.intercalate [0x0A]
        ((literal_chunks data mc).map (fun c => 0x22 :: c ++ [0x22]))) := by
  unfold split_c_literal c_escape_bytes
  simp only [List.cons_append]
  have hlast : ((0x22 : Nat) :: (c_escape_body data ++ [0x22])).getLast? =
      some 0x22 := by
    rw [show (0x22 : Nat) :: (c_escape_body data ++ [0x22]) =
      (0x22 :: c_escape_body data) ++ [0x22] from by simp,
      List.getLast?_concat]
  rw [if_pos ⟨rfl, hlast⟩]
  try dsimp only
  have hinner : (((0x22 : Nat) :: (c_escape_body data ++ [0x22])).drop 1).dropLast
      = c_escape_body data := by
    simp only [List.drop_succ_cons, List.drop_zero, List.dropLast_concat]
  rw [hinner]
  unfold literal_chunks
  by_cases hlen : (c_escape_body data).length ≤ mc
  · rw [if_pos hlen, if_pos hlen]
    simp [List.intercalate]
  · rw [if_neg hlen, if_neg hlen]

/-! ## Claims C1 and C2 about escaping and chunk splitting -/
/-- C1 evaluation at the failing input: for pool bytes 0x61 0x0A and
maximum chunk size 2, the escaped body is the three characters a backslash
n; the chunks are a-backslash and n, so concatenation does restore the
escaped text, but the chunk boundary falls between the backslash and the n
of the two-character escape: the first chunk is not unescapable, and no
prefix of the buffer escapes to the first chunk, so no chunk-aligned
partition of the escape tokens exists.  The rendered first literal ends in
a bare backslash before its closing quote. -/
theorem split_literal_escape_boundary_bug :
    split_c_literal (c_escape_bytes [0x61, 0x0A]) 2 =
        Except.ok (strToCodes "\"a\\\"\n\"n\"") ∧
      literal_chunks [0x61, 0x0A] 2 = [[0x61, 0x5C], [0x6E]] ∧
      (literal_chunks [0x61, 0x0A] 2).flatten = c_escape_body [0x61, 0x0A] ∧
      c_unescape [0x61, 0x5C] = none ∧
      (∀ n < 3, ¬c_escape_body (([0x61, 0x0A] : List Nat).take n)
        = [0x61, 0x5C]) := by
  refine ⟨by rfl, by decide, by decide, by decide, by decide⟩

/-- C2: for every byte buffer and every maximum chunk size of at least one,
`split_c_literal` renders exactly the quoted literal chunks, and unescaping
those chunks concatenated in order reproduces the buffer byte for byte. -/
theorem escape_roundtrip (data : List Nat) (max_chunk : Nat)
    (hdata : ∀ x ∈ data, x ≤ 0xFF) (hmax : 1 ≤ max_chunk) :
    c_unescape ((literal_chunks data max_chunk).flatten) = some data ∧
      split_c_literal (c_escape_bytes data) max_chunk =
        Except.ok (List.intercalate [0x0A]
          ((literal_chunks data max_chunk).map (fun c => 0x22 :: c ++ [0x22]))) := by
  constructor
  · have hfl : (literal_chunks data max_chunk).flatten = c_escape_body data := by
      unfold literal_chunks
      split
      · simp
      · exact split_chunks_flatten _ _ hmax
    rw [hfl]
    exact c_unescape_escape_body data hdata
  · exact split_c_literal_escape data max_chunk

/-- C2 witness at pool bytes 0x61 0x0A with maximum chunk size 2. -/
theorem escape_roundtrip_witness :
    c_unescape ((literal_chunks [0x61, 0x0A] 2).flatten) =
      some [0x61, 0x0A] :=
  (escape_roundtrip [0x61, 0x0A] 2 (by decide) (by decide)).1

/-! ## Claim C7 about environment binding resolution -/
/-- C7: the resolver is a function of the executable string and the
override table, applying in order the exact override match on the lowered
basename, then the substring rules zipinfo, unzip, zip, then the fallback;
in particular the zipinfo rule fires before the zip rule on any basename
containing zipinfo. -/
theorem tool_env_for_precedence (tool0 : List Nat)
    (overrides : List (List Nat × List Nat)) :
    (∀ v, lookup_assoc (lower_ascii (path_name tool0)) overrides = some v →
        tool_env_for tool0 overrides = v) ∧
      (lookup_assoc (lower_ascii (path_name tool0)) overrides = none →
        (has_sub (strToCodes "zipinfo") (lower_ascii (path_name tool0)) = true →
            tool_env_for tool0 overrides = strToCodes "ZIPINFO_BIN") ∧
        (has_sub (strToCodes "zipinfo") (lower_ascii (path_name tool0)) = false →
          has_sub (strToCodes "unzip") (lower_ascii (path_name tool0)) = true →
            tool_env_for tool0 overrides = strToCodes "UNZIP_BIN") ∧
        (has_sub (strToCodes "zipinfo") (lower_ascii (path_name tool0)) = false →
          has_sub (strToCodes "unzip") (lower_ascii (path_name tool0)) = false →
          has_sub (strToCodes "zip") (lower_ascii (path_name tool0)) = true →
            tool_env_for tool0 overrides = strToCodes "ZIP_BIN") ∧
        (has_sub (strToCodes "zipinfo") (lower_ascii (path_name tool0)) = false →
          has_sub (strToCodes "unzip") (lower_ascii (path_name tool0)) = false →
          has_sub (strToCodes "zip") (lower_ascii (path_name tool0)) = false →
            tool_env_for tool0 overrides = strToCodes "TOOL_BIN")) := by
  refine ⟨?_, ?_⟩
  · intro v hv
    simp [tool_env_for, hv]
  · intro hnone
    refine ⟨?_, ?_, ?_, ?_⟩
    · intro h1
      simp [tool_env_for, hnone, h1]
    · intro h1 h2
      simp [tool_env_for, hnone, h1, h2]
    · intro h1 h2 h3
      simp [tool_env_for, hnone, h1, h2, h3]
    · intro h1 h2 h3
      simp [tool_env_for, hnone, h1, h2, h3]

/-- C7 witness: a zipinfo path resolves to ZIPINFO_BIN although its
basename also contains zip, and unzip resolves to UNZIP_BIN. -/
theorem tool_env_for_precedence_witness :
    tool_env_for (strToCodes "/usr/bin/zipinfo") [] =
        strToCodes "ZIPINFO_BIN" ∧
      tool_env_for (strToCodes "unzip") [] = strToCodes "UNZIP_BIN" := by
  constructor
  · exact ((tool_env_for_precedence (strToCodes "/usr/bin/zipinfo") []).2
      (by decide)).1 (by decide)
  · exact (((tool_env_for_precedence (strToCodes "unzip") []).2
      (by decide)).2).1 (by decide) (by decide)

/-! ## Claim C8 about string pool deduplication -/
theorem lookup_assoc_append_self {α : Type} (k : List Nat) (v : α) :
    ∀ l, lookup_assoc k l = none →
      lookup_assoc k (l ++ [(k, v)]) = some v := by
  intro l
  induction l with
  | nil =>
    intro h
    simp [lookup_assoc]
  | cons p t ih =>
    intro h
    obtain ⟨k2, v2⟩ := p
    unfold lookup_assoc at h ⊢
    by_cases hk : k = k2
    · rw [if_pos hk] at h
      cases h
    · rw [if_neg hk] at h
      simp only [List.cons_append, lookup_assoc]
      rw [if_neg hk]
      exact ih h

theorem intern_unique_le (q : StringPool) (s : List Nat) :
    ((q.intern s).2).unique ≤ q.unique + 1 := by
  cases hl : lookup_assoc (utf8Encode s) q.index with
  | none => simp [StringPool.intern, StringPool.unique, hl]
  | some meta => simp [StringPool.intern, StringPool.unique, hl]

theorem run_interns_le : ∀ (ss : List (List Nat)) (q : StringPool),
    (run_interns q ss).unique ≤ q.unique + ss.length := by
  intro ss
  induction ss with
  | nil =>
    intro q
    simp [run_interns, StringPool.unique]
  | cons s ss ih =>
    intro q
    have hstep : run_interns q (s :: ss) = run_interns ((q.intern s).2) ss := rfl
    rw [hstep]
    have h1 := ih ((q.intern s).2)
    have h2 := intern_unique_le q s
    simp only [List.length_cons]
    omega

/-- C8: interning the same content a second time returns the identical
offset-length pair and leaves the pool state (buffer and index) unchanged,
and the number of distinct index entries after any sequence of intern
calls is at most the number of calls (plus what the pool already held). -/
theorem pool_dedup (p : StringPool) (s : List Nat) (ss : List (List Nat)) :
    (((p.intern s).2).intern s).1 = (p.intern s).1 ∧
      (((p.intern s).2).intern s).2 = (p.intern s).2 ∧
      (run_interns p ss).unique ≤ p.unique + ss.length ∧
      (run_interns StringPool.empty ss).unique ≤ ss.length := by
  refine ⟨?_, ?_, run_interns_le ss p, ?_⟩
  · cases hl : lookup_assoc (utf8Encode s) p.index with
    | some meta => simp [StringPool.intern, hl]
    | none =>
      have h2 := lookup_assoc_append_self (utf8Encode s)
        ((p.buf.length, (utf8Encode s).length)) p.index hl
      simp [StringPool.intern, hl, h2]
  · cases hl : lookup_assoc (utf8Encode s) p.index with
    | some meta => simp [StringPool.intern, hl]
    | none =>
      have h2 := lookup_assoc_append_self (utf8Encode s)
        ((p.buf.length, (utf8Encode s).length)) p.index hl
      simp [StringPool.intern, hl, h2]
  · have h := run_interns_le ss StringPool.empty
    simpa [StringPool.empty, StringPool.unique] using h

/-! ## Claims C3, C4 and C10 about record extraction -/
/-- C3 counterexample: in strict mode, a line that fails relaxed JSON
decoding and a line decoding to a non-object are both silently skipped
(the run succeeds with zero tests) instead of raising a fatal error. -/
theorem strict_malformed_skip_counterexample :
    extract_tests [(strToCodes "in.jsonl", [none])] true [] 1024 [] =
        Except.ok [] ∧
      extract_tests [(strToCodes "in.jsonl", [some (Json.arr [])])] true []
        1024 [] = Except.ok [] := by
  exact ⟨rfl, rfl⟩

theorem extract_command_lenient_ok (path : List Nat) (lineno i : Nat)
    (npfx bname : List Nat) (mob : Nat)
    (ov : List (List Nat × List Nat)) (cmd : Json) :
    except_ok (extract_command false path lineno i npfx bname mob ov cmd)
      = true := by
  unfold extract_command
  repeat' split
  all_goals simp_all [except_ok]

theorem except_ok_map {ε α β : Type} (f : α → β) (e : Except ε α) :
    except_ok (e.map f) = except_ok e := by
  cases e <;> rfl

theorem extract_commands_loop_lenient (path : List Nat) (lineno : Nat)
    (npfx bname : List Nat) (mob : Nat)
    (ov : List (List Nat × List Nat)) :
    ∀ (cmds : List Json) (i : Nat),
      except_ok (extract_commands_loop false path lineno npfx bname mob ov
        i cmds) = true := by
  intro cmds
  induction cmds with
  | nil => intro i; rfl
  | cons c rest ih =>
    intro i
    unfold extract_commands_loop
    cases hcv : extract_command false path lineno i npfx bname mob ov c with
    | error e =>
      have h2 := extract_command_lenient_ok path lineno i npfx bname mob ov c
      rw [hcv] at h2
      simp [except_ok] at h2
    | ok r =>
      cases r with
      | none => exact ih (i + 1)
      | some t =>
        rw [except_ok_map]
        exact ih (i + 1)

theorem extract_record_lenient_ok (path : List Nat) (lineno : Nat)
    (npfx : List Nat) (mob : Nat) (ov : List (List Nat × List Nat))
    (line : Option Json) :
    except_ok (extract_record false path lineno npfx mob ov line) = true := by
  unfold extract_record
  repeat' split
  all_goals first
    | rfl
    | apply extract_commands_loop_lenient
    | simp_all [except_ok]

theorem extract_lines_loop_lenient (path : List Nat) (npfx : List Nat)
    (mob : Nat) (ov : List (List Nat × List Nat)) :
    ∀ (lines : List (Option Json)) (lineno : Nat),
      except_ok (extract_lines_loop false path npfx mob ov lineno lines)
        = true := by
  intro lines
  induction lines with
  | nil => intro lineno; rfl
  | cons line rest ih =>
    intro lineno
    unfold extract_lines_loop
    cases hrv : extract_record false path lineno npfx mob ov line with
    | error e =>
      have h2 := extract_record_lenient_ok path lineno npfx mob ov line
      rw [hrv] at h2
      simp [except_ok] at h2
    | ok ts =>
      rw [except_ok_map]
      exact ih (lineno + 1)

/-- C3 (amended): a line that fails to decode or is not a JSON object is
skipped in both modes, lenient and strict alike; and a lenient run never
raises at all.  Strict mode aborts only on structural validation failures
inside decoded objects. -/
theorem malformed_line_skipped_amended :
    (∀ (strict : Bool) (path : List Nat) (lineno : Nat) (npfx : List Nat)
        (mob : Nat) (ov : List (List Nat × List Nat)) (line : Option Json),
      json_loads_relaxed line = none →
        extract_record strict path lineno npfx mob ov line = Except.ok []) ∧
      (∀ (inputs : List (List Nat × List (Option Json))) (npfx : List Nat)
          (mob : Nat) (ov : List (List Nat × List Nat)),
        except_ok (extract_tests inputs false npfx mob ov) = true) := by
  constructor
  · intro strict path lineno npfx mob ov line h
    unfold extract_record
    rw [h]
  · intro inputs npfx mob ov
    induction inputs with
    | nil => rfl
    | cons pls rest ih =>
      obtain ⟨p, ls⟩ := pls
      unfold extract_tests
      cases hfv : extract_lines_loop false p npfx mob ov 1 ls with
      | error e =>
        have h2 := extract_lines_loop_lenient p npfx mob ov ls 1
        rw [hfv] at h2
        simp [except_ok] at h2
      | ok ts =>
        rw [except_ok_map]
        exact ih

/-- C3 witness: a malformed line in strict mode is skipped. -/
theorem malformed_line_skipped_amended_witness :
    extract_record true (strToCodes "in.jsonl") 1 [] 1024 [] none =
      Except.ok [] :=
  malformed_line_skipped_amended.1 true (strToCodes "in.jsonl") 1 [] 1024 []
    none rfl

/-- C4 counterexample: in lenient mode a command with a valid argv and a
non-integer returncode yields zero emitted tests; it is not emitted with
expected return code zero. -/
theorem returncode_nonint_counterexample :
    extract_tests [(strToCodes "in.jsonl",
      [some (Json.obj [("name", Json.str (strToCodes "t")),
        ("commands", Json.arr [Json.obj
          [("argv", Json.arr [Json.str (strToCodes "zip")]),
           ("returncode", Json.str (strToCodes "x"))]])])])] false [] 1024 []
      = Except.ok [] := by
  rfl

/-- C4 (amended): a command whose returncode field is missing or not an
integer is skipped entirely in lenient mode, emitting no test case for it;
in strict mode the same condition makes the run abort with the
line-numbered missing-returncode diagnostic. -/
theorem returncode_nonint_amended (path : List Nat) (lineno i : Nat)
    (npfx bname : List Nat) (mob : Nat) (ov : List (List Nat × List Nat))
    (cfields : List (String × Json)) (xs : List Json) (rc : Json)
    (hargv : jlookup "argv" cfields = some (Json.arr xs))
    (hxs : (xs.all isJsonStr && !xs.isEmpty) = true)
    (hrc : jlookup "returncode" cfields = some rc)
    (hrci : isJsonInt rc = false) :
    extract_command false path lineno i npfx bname mob ov (Json.obj cfields)
        = Except.ok none ∧
      extract_command true path lineno i npfx bname mob ov (Json.obj cfields)
        = Except.error (cmd_err path lineno i "missing returncode") := by
  constructor <;> simp [extract_command, hargv, hxs, hrc, hrci]

/-- C4 witness at a concrete command with string returncode x. -/
theorem returncode_nonint_amended_witness :
    extract_command false (strToCodes "in.jsonl") 1 0 []
        (strToCodes "t") 1024 []
        (Json.obj [("argv", Json.arr [Json.str (strToCodes "zip")]),
          ("returncode", Json.str (strToCodes "x"))]) = Except.ok none :=
  (returncode_nonint_amended (strToCodes "in.jsonl") 1 0 [] (strToCodes "t")
    1024 [] [("argv", Json.arr [Json.str (strToCodes "zip")]),
      ("returncode", Json.str (strToCodes "x"))]
    [Json.str (strToCodes "zip")] (Json.str (strToCodes "x"))
    rfl (by decide) rfl (by decide)).1

/-- C10: a record with no commands key at all yields zero test cases and no
error in either mode; only a present commands value that is not a list can
be fatal, and only in strict mode. -/
theorem missing_commands_ok (strict : Bool) (path : List Nat) (lineno : Nat)
    (npfx : List Nat) (mob : Nat) (ov : List (List Nat × List Nat))
    (fields : List (String × Json))
    (h : jlookup "commands" fields = none) :
    extract_record strict path lineno npfx mob ov
      (some (Json.obj fields)) = Except.ok [] := by
  simp [extract_record, json_loads_relaxed, h]

/-- C10 witness: a record carrying only a name, in strict mode. -/
theorem missing_commands_ok_witness :
    extract_record true (strToCodes "in.jsonl") 1 [] 1024 []
      (some (Json.obj [("name", Json.str (strToCodes "t"))])) =
      Except.ok [] :=
  missing_commands_ok true (strToCodes "in.jsonl") 1 [] 1024 []
    [("name", Json.str (strToCodes "t"))] rfl

/-! ## Claim C9 about emission atomicity -/
/-- C9 counterexample: interrupting an empty-input emission after its first
successful write leaves a file holding exactly the first prologue line, a
nonempty strict prefix that differs from the complete artifact, while the
uninterrupted emission succeeds.  Emission is therefore not atomic from
the caller perspective. -/
theorem emit_interrupted_counterexample :
    except_getD (emit_c_interrupted [] false (strToCodes "./build") 1) [] =
        strToCodes "#define _POSIX_C_SOURCE 200809L\n" ∧
      ¬except_getD (emit_c_artifact [] false (strToCodes "./build")) [] =
        except_getD (emit_c_interrupted [] false (strToCodes "./build") 1) [] ∧
      except_ok (emit_c_writes [] false (strToCodes "./build")) = true := by
  refine ⟨by rfl, by decide, by rfl⟩

/-- C9 (amended): a fatal extraction error aborts the run before emission,
so no output file is written in that case; when emission runs, the file
after all writes is exactly the complete artifact, but an I/O error during
emission leaves the prefix written so far, since the output is opened with
truncation and written incrementally. -/
theorem emit_atomicity_amended :
    (∀ (inputs : List (List Nat × List (Option Json))) (strict : Bool)
        (npfx : List Nat) (mob : Nat) (ov : List (List Nat × List Nat))
        (re : Bool) (dbd : List Nat) (e : List Nat),
      extract_tests inputs strict npfx mob ov = Except.error e →
        run_main inputs strict npfx mob ov re dbd = Except.error e) ∧
      (∀ (tests : List TestCase) (re : Bool) (dbd : List Nat)
          (ws : List (List Nat)),
        emit_c_writes tests re dbd = Except.ok ws →
          emit_c_interrupted tests re dbd ws.length = Except.ok ws.flatten ∧
            emit_c_artifact tests re dbd = Except.ok ws.flatten) := by
  constructor
  · intro inputs strict npfx mob ov re dbd e h
    unfold run_main
    rw [h]
  · intro tests re dbd ws h
    constructor
    · unfold emit_c_interrupted
      rw [h]
      show Except.ok ((ws.take ws.length).flatten) = Except.ok ws.flatten
      rw [List.take_length]
    · unfold emit_c_artifact
      rw [h]
      rfl

/-- C9 witness: a strict-mode validation error propagates out of the run
before emission begins. -/
theorem emit_atomicity_amended_witness :
    run_main [(strToCodes "in.jsonl",
        [some (Json.obj [("commands", Json.num 0)])])] true [] 1024 [] false
        (strToCodes "./build") =
      Except.error (rec_err (strToCodes "in.jsonl") 1
        " commands is not a list") :=
  emit_atomicity_amended.1 [(strToCodes "in.jsonl",
    [some (Json.obj [("commands", Json.num 0)])])] true [] 1024 [] false
    (strToCodes "./build") (rec_err (strToCodes "in.jsonl") 1
      " commands is not a list") rfl

end ZipUtils
